import Mathlib

/-!
Verification development for the `data_toolchest` repository.

This file gives a shallow embedding of the three core components and proves
properties about them:

* `src/data_toolchest/json/json_compare.py` — the recursive JSON diff engine
  (`Json_Dict_Compare_obj`, `test_value_diff`, `test_string_to_float`,
  `type_dict`, `container_dict`).  That module is Python 2 code (print
  statements, `types.StringType` etc.), so it is embedded with Python 2
  semantics.  In particular CPython 2 represents JSON integers of magnitude
  beyond `sys.maxint` (2^63 - 1 on 64-bit builds) as `long`, and `type_dict`
  has no `LongType` key, so the type lookup raises an uncaught `KeyError`
  for such values.  The embedding makes that failure explicit: functions that
  can raise return `Option`, with `none` for an escaping exception.
* `src/data_toolchest/nested_data/address_nested_data.py` — the tree
  addresser (`address_json`, `value_drilldown`).
* `src/data_toolchest/nested_data/compare_nested_data.py` — the
  `AddressedValueSet` set-algebra container.

Python floats are modelled as IEEE-754 binary64 values (`PyF`): a finite
value is carried as an exact `m * 2^g`, and the infinities and NaN are
separate constructors.  Coercions (`float(str)`, `float(int)`) round their
exact value to nearest, ties to even, and overflow to the infinities;
subtraction and multiplication round their exact result the same way; every
comparison involving a NaN is false, and `abs(False) = 0`, `abs(True) = 1`
as in Python.  `float(str)` accepts the decimal grammar with surrounding
whitespace and the case-insensitive `inf`/`infinity`/`nan` keywords.  A
`Json.num q` node denotes the parsed Python float nearest to `q` (CPython's
`json` parses number literals through the same rounding, so e.g. a literal
`1e999` denotes the float `inf`).  The significance fraction is carried as
an exact rational and used exactly in the rounded products; every actual
CPython float argument is such a rational.  File I/O is modelled away by
taking already-parsed trees as inputs, exactly where the source hands the
parsed object to the algorithm.  Python `sorted` on strings compares code
points, which is mirrored by an insertion sort over `Char.toNat`.
-/

set_option maxRecDepth 8000
set_option exponentiation.threshold 1300

/-! ## JSON values

A parsed JSON tree as CPython 2 materialises it: dictionaries are key/value
sequences, arrays are lists, scalars are null / bool / int / float / str.
-/

inductive Json where
  | null
  | b (x : Bool)
  | i (n : Int)
  | num (q : ℚ)
  | s (t : String)
  | arr (xs : List Json)
  | obj (kvs : List (String × Json))

-- Size measure used as recursion fuel (the auto-generated `sizeOf` for a
-- nested inductive has no executable code, so we roll our own).
mutual

def jsize : Json → Nat
  | .arr xs => 1 + jsizeL xs
  | .obj kvs => 1 + jsizeO kvs
  | _ => 1

def jsizeL : List Json → Nat
  | [] => 0
  | x :: xs => jsize x + jsizeL xs

def jsizeO : List (String × Json) → Nat
  | [] => 0
  | p :: rest => jsize p.2 + jsizeO rest

end

def osize : Option Json → Nat
  | none => 0
  | some j => jsize j

/-! ## Python-ordered string sorting

`sorted` in Python 2 compares strings by code point, lexicographically. -/

def strLeb : List Char → List Char → Bool
  | [], _ => true
  | _ :: _, [] => false
  | a :: as, b :: bs =>
    if a.toNat < b.toNat then true
    else if b.toNat < a.toNat then false
    else strLeb as bs

def insertLe (a : String) : List String → List String
  | [] => [a]
  | b :: bs => if strLeb a.data b.data then a :: b :: bs else b :: insertLe a bs

def pySorted : List String → List String
  | [] => []
  | a :: as => insertLe a (pySorted as)

/-- Model of `set(...)` before sorting: keep one copy of each element.  The
result is only ever consumed through `pySorted`, so which duplicate survives
is irrelevant. -/
def pyDedup : List String → List String
  | [] => []
  | a :: as => if a ∈ as then pyDedup as else a :: pyDedup as

/-- Python dict lookup `d[k]` / membership `k in d`, on the key/value list of
an object.  CPython dictionaries have unique keys, so first-match lookup is
faithful. -/
def lookupJ (k : String) : List (String × Json) → Option Json
  | [] => none
  | p :: rest => if k = p.1 then some p.2 else lookupJ k rest

/-- The default significance fraction 0.10, in reduced form so that its
numerator and denominator compute by kernel reduction. -/
def tenth : ℚ := ⟨1, 10, by norm_num, by norm_num⟩

/-! ## `type_dict` and the semantic type of a value

`type_dict` maps `str`/`unicode` → "string", `int` → "integer",
`list` → "array", `bool` → "boolean", `float` → "number",
`dict` → "object", `NoneType` → `None` (the Python value `None`, not a
string).  There is **no** entry for `long`: a JSON integer outside the
CPython 2 machine-int range [-2^63, 2^63 - 1] is a `long` and the lookup
raises `KeyError`, modelled as `none`.  The `'-'` placeholder type assigned
to an absent side is a separate constructor. -/

inductive VType where
  | string | integer | array | boolean | number | object
  | noneT   -- Python `None`, the type_dict image of NoneType
  | dash    -- the '-' placeholder assigned when a side is absent
deriving DecidableEq, Repr

/-- CPython 2 `int` range on a 64-bit build (`-sys.maxint - 1 .. sys.maxint`). -/
def pyIntOk (n : Int) : Prop := -(2 ^ 63) ≤ n ∧ n < 2 ^ 63

instance (n : Int) : Decidable (pyIntOk n) := by unfold pyIntOk; infer_instance

def typeDict : Json → Option VType
  | .s _ => some .string
  | .i n => if pyIntOk n then some .integer else none
  | .arr _ => some .array
  | .b _ => some .boolean
  | .num _ => some .number
  | .obj _ => some .object
  | .null => some .noneT

/-- Lines 121-137 of `json_compare.py`: a present side gets its `type_dict`
type (possibly crashing), an absent side (`old_keyval is False`) gets the
`'-'` placeholder. -/
def sideType : Option Json → Option VType
  | none => some .dash
  | some j => typeDict j

def isCont : VType → Bool
  | .object => true
  | .array => true
  | _ => false

/-- `container_cnt`, lines 147-148: how many of the two side types are
`'object'` or `'array'`. -/
def containerCnt (oty nty : VType) : Nat :=
  (if isCont oty then 1 else 0) + (if isCont nty then 1 else 0)

/-- A value as it is stored in `val_results` (lines 139-146): absent sides
show `'-'`, containers are replaced by the `container_dict` placeholders
`'{...}'` / `'[...]'`, scalars are shown as themselves. -/
inductive Shown where
  | dash
  | objPH
  | arrPH
  | raw (j : Json)

def showSide : Option Json → VType → Shown
  | none, _ => .dash
  | some j, t =>
    if t = .object then .objPH else if t = .array then .arrPH else .raw j

/-! ## `test_string_to_float` / `test_value_diff` -/

def natOfDigits (ds : List Char) : Nat :=
  ds.foldl (fun a c => a * 10 + (c.toNat - 48)) 0

/-! ### IEEE-754 binary64, as CPython 2 floats

A `PyF` is a finite double carried as an exact value `m * 2^g`, an
infinity, or a NaN.  `roundRat` rounds a rational `±(n/d)` to the nearest
double (ties to even): the grid exponent is `max(E - 52, -1074)` for
`E = ⌊log₂(n/d)⌋` (so both normal and subnormal values are covered), and a
rounded magnitude of at least `2^1024` overflows to the infinity of the
sign.  The representation is not forced to be canonical; all operations
compare by value. -/

inductive PyF where
  | finite (m : Int) (g : Int)
  | inf
  | neginf
  | nan
deriving DecidableEq, Repr

/-- `⌊log₂ n⌋`, fuel-indexed so that it computes by kernel reduction. -/
def log2F : Nat → Nat → Nat
  | 0, _ => 0
  | f+1, n => if n ≤ 1 then 0 else log2F f (n / 2) + 1

def natLog2 (n : Nat) : Nat := log2F n n

/-- `⌊log₂ (n/d)⌋` for `n, d ≥ 1`. -/
def ratLog2 (n d : Nat) : Int :=
  let e0 : Int := (natLog2 n : Int) - (natLog2 d : Int)
  if 0 ≤ e0 then (if d * 2 ^ e0.toNat ≤ n then e0 else e0 - 1)
  else (if d ≤ n * 2 ^ (-e0).toNat then e0 else e0 - 1)

/-- Nearest integer to `a/b`, ties to even. -/
def rndHalfEven (a b : Nat) : Nat :=
  let q := a / b
  let r := a % b
  if 2 * r < b then q
  else if b < 2 * r then q + 1
  else if q % 2 = 0 then q else q + 1

def roundRes (neg : Bool) (m : Nat) (g : Int) (over : Bool) : PyF :=
  if over then (if neg then .neginf else .inf)
  else .finite (if neg then -(m : Int) else (m : Int)) g

/-- Round `±(n/d)` to the nearest binary64 value (ties to even); a rounded
magnitude `≥ 2^1024` gives the signed infinity. -/
def roundRat (neg : Bool) (n d : Nat) : PyF :=
  if n = 0 then .finite 0 0
  else
    let E := ratLog2 n d
    let g : Int := max (E - 52) (-1074)
    let m : Nat :=
      if 0 ≤ g then rndHalfEven n (d * 2 ^ g.toNat)
      else rndHalfEven (n * 2 ^ (-g).toNat) d
    let over : Bool :=
      if 0 ≤ g then decide (2 ^ 1024 ≤ m * 2 ^ g.toNat)
      else decide (2 ^ 1024 * 2 ^ (-g).toNat ≤ m)
    roundRes neg m g over

/-- Round the exact value `M * 2^G`. -/
def roundPair (M G : Int) : PyF :=
  if 0 ≤ G then roundRat (decide (M < 0)) (M.natAbs * 2 ^ G.toNat) 1
  else roundRat (decide (M < 0)) M.natAbs (2 ^ (-G).toNat)

/-- IEEE subtraction: the exact difference, rounded; `inf - inf` is NaN. -/
def pfSub : PyF → PyF → PyF
  | .nan, _ => .nan
  | _, .nan => .nan
  | .inf, .inf => .nan
  | .inf, _ => .inf
  | .neginf, .neginf => .nan
  | .neginf, _ => .neginf
  | .finite _ _, .inf => .neginf
  | .finite _ _, .neginf => .inf
  | .finite m1 g1, .finite m2 g2 =>
    let gm := min g1 g2
    roundPair (m1 * 2 ^ (g1 - gm).toNat - m2 * 2 ^ (g2 - gm).toNat) gm

/-- IEEE multiplication by the significance fraction (carried as an exact
rational; every CPython float is one): the exact product, rounded.
`±inf * 0` is NaN. -/
def pfMulQ (x : PyF) (frac : ℚ) : PyF :=
  match x with
  | .nan => .nan
  | .inf => if frac.num = 0 then .nan else if frac.num < 0 then .neginf else .inf
  | .neginf => if frac.num = 0 then .nan else if frac.num < 0 then .inf else .neginf
  | .finite m g =>
    let M := m * frac.num
    if 0 ≤ g then roundRat (decide (M < 0)) (M.natAbs * 2 ^ g.toNat) frac.den
    else roundRat (decide (M < 0)) M.natAbs (frac.den * 2 ^ (-g).toNat)

/-- Python `abs` on a float (`abs(nan) = nan`). -/
def pfAbs : PyF → PyF
  | .nan => .nan
  | .inf => .inf
  | .neginf => .inf
  | .finite m g => .finite (m.natAbs : Int) g

/-- Python `<=` on floats: any comparison involving a NaN is false. -/
def pfLeB : PyF → PyF → Bool
  | .nan, _ => false
  | _, .nan => false
  | .neginf, _ => true
  | _, .inf => true
  | .inf, _ => false
  | _, .neginf => false
  | .finite m1 g1, .finite m2 g2 =>
    let gm := min g1 g2
    decide (m1 * 2 ^ (g1 - gm).toNat ≤ m2 * 2 ^ (g2 - gm).toNat)

/-! ### `float(str)` and the coercions of `test_string_to_float` -/

/-- The whitespace `float(str)` strips from both ends. -/
def pyWs (c : Char) : Bool :=
  c = ' ' || c = '\t' || c = '\n' || c = '\x0d' || c = '\x0b' || c = '\x0c'

/-- The decimal core of the `float(str)` grammar (sign already split off):
`(digits [. digits] | . digits) [(e|E) [sign] digits]`, the whole input
consumed.  Returns `(D, e10)` for the exact value `D * 10^e10`. -/
def parseDecCore (cs : List Char) : Option (Nat × Int) :=
  let ip := cs.takeWhile Char.isDigit
  let rest1 := cs.dropWhile Char.isDigit
  let fpr : List Char × List Char :=
    match rest1 with
    | '.' :: r => (r.takeWhile Char.isDigit, r.dropWhile Char.isDigit)
    | _ => ([], rest1)
  let fp := fpr.1
  if ip.isEmpty ∧ fp.isEmpty then none
  else
    let er : Option Int × List Char :=
      match fpr.2 with
      | 'e' :: r =>
        let esn : Bool × List Char :=
          match r with
          | '-' :: r2 => (true, r2)
          | '+' :: r2 => (false, r2)
          | _ => (false, r)
        let ed := esn.2.takeWhile Char.isDigit
        if ed.isEmpty then (none, [])
        else (some (if esn.1 then -(natOfDigits ed : Int) else (natOfDigits ed : Int)),
              esn.2.dropWhile Char.isDigit)
      | 'E' :: r =>
        let esn : Bool × List Char :=
          match r with
          | '-' :: r2 => (true, r2)
          | '+' :: r2 => (false, r2)
          | _ => (false, r)
        let ed := esn.2.takeWhile Char.isDigit
        if ed.isEmpty then (none, [])
        else (some (if esn.1 then -(natOfDigits ed : Int) else (natOfDigits ed : Int)),
              esn.2.dropWhile Char.isDigit)
      | _ => (some 0, fpr.2)
    match er with
    | (none, _) => none
    | (some e, tail) =>
      if tail.isEmpty then some (natOfDigits (ip ++ fp), e - fp.length)
      else none

/-- Round the decimal `±(D * 10^e10)` to the nearest double, so `"1e999"`
parses to `inf` as in CPython. -/
def roundDec (neg : Bool) (D : Nat) (e10 : Int) : PyF :=
  if 0 ≤ e10 then roundRat neg (D * 10 ^ e10.toNat) 1
  else roundRat neg D (10 ^ (-e10).toNat)

/-- CPython 2 `float(str)`: strip whitespace, take an optional sign, then
either a case-insensitive `inf`/`infinity`/`nan` keyword or a decimal
literal, rounded to the nearest double. -/
def floatOfChars (cs0 : List Char) : Option PyF :=
  let cs1 := cs0.dropWhile pyWs
  let cs := (cs1.reverse.dropWhile pyWs).reverse
  let sn : Bool × List Char :=
    match cs with
    | '-' :: r => (true, r)
    | '+' :: r => (false, r)
    | _ => (false, cs)
  let low := sn.2.map Char.toLower
  if low = ['i','n','f'] ∨ low = ['i','n','f','i','n','i','t','y'] then
    some (if sn.1 then .neginf else .inf)
  else if low = ['n','a','n'] then some .nan
  else
    match parseDecCore sn.2 with
    | none => none
    | some (D, e10) => some (roundDec sn.1 D e10)

def floatOfString (t : String) : Option PyF := floatOfChars t.data

/-- `test_string_to_float` (lines 63-75) for a present value: only values of
type string / number / integer are attempted, and `float(·)` of a string can
fail.  Booleans are rejected by the type gate even though Python could
coerce them.  `float(int)` rounds to the nearest double (exact only below
2^53); a `num q` node already is the double nearest `q`. -/
def pyFloat : Json → Option PyF
  | .s t => floatOfString t
  | .i n => some (roundRat (decide (n < 0)) n.natAbs 1)
  | .num q => some (roundRat (decide (q.num < 0)) q.num.natAbs q.den)
  | _ => none

/-- `test_string_to_float` applied to a side as stored in `self.old_val` /
`self.new_val`: an absent side holds the string `'-'`, which never parses. -/
def pyFloatSide : Option Json → Option PyF
  | none => none
  | some j => pyFloat j

/-- `true` iff the value's `float` coercion is absent or finite (no
infinity, no NaN). -/
def finOrNone : Option PyF → Bool
  | none => true
  | some (.finite _ _) => true
  | some _ => false

/-- Inside `test_value_diff` the dash of an absent side is just the string
`'-'`: it has string type and compares equal to a genuine `"-"` value. -/
def strOfSide : Option Json → Option String
  | none => some "-"
  | some (.s t) => some t
  | some _ => none

/-- `diff_val` in `test_value_diff`: a float, or Python `True` / `False`.
Distinct constructors mirror the `is True` / `is False` identity checks
(`0.0 is False` is false in Python). -/
inductive DiffVal where
  | num (x : PyF)
  | tt
  | ff
deriving DecidableEq

/-- Python `abs` on a `diff_val`: `abs(False) = 0`, `abs(True) = 1` (ints,
compared with the float threshold by exact value). -/
def pyAbs : DiffVal → PyF
  | .num x => pfAbs x
  | .tt => .finite 1 0
  | .ff => .finite 0 0

/-- `test_value_diff` (lines 77-103): returns `(out_flg, diff_val)`; the
numerical difference is the IEEE difference of the two coerced floats. -/
def test_value_diff (o n : Option Json) : Bool × DiffVal :=
  match pyFloatSide o, pyFloatSide n with
  | some a, some b => (true, .num (pfSub a b))
  | _, _ =>
    match strOfSide o, strOfSide n with
    | some x, some y => (true, if x = y then .tt else .ff)
    | _, _ => (false, .ff)

/-! ## Diff records and the four category buckets -/

inductive Cat where
  | dropped | new | changed | same
deriving DecidableEq, Repr

/-- The strings appended to `diff_msg_lt`, as structured constructors (the
`%s` payloads are carried as data). -/
inductive Msg where
  | keyNotInOld                      -- 'Key_tag not in original input file'
  | keyNotInNew                      -- 'Key-Tag not in new input file'
  | typeChanged (a b : VType)        -- 'ValueType changed from _ to _'
  | typeUnchanged (t : VType)        -- 'ValueType _ unchanged'
  | stringUnchanged                  -- 'StringValue unchanged'
  | stringChanged (o n : Shown)      -- 'StringValue changed (_ - _)'
  | numDiffNotSig (d : DiffVal)      -- 'Value numerical difference of _ (not significant)'
  | numDiffSig (d : DiffVal)         -- 'Value numerical difference of _ (significant)'
  | cannotCompare                    -- 'Cannot compare values'
  | objKeyCount (a b : Nat)          -- 'ObjectType number of keys changed from _ to _'
  | objKeySet                        -- 'ObjectType set of keys changed'
  | objUnchanged                     -- 'ObjectType length and keys appear unchanged ...'
  | arrCount (a b : Nat)             -- 'ArrayType number of elements changed from _ to _'
  | arrUnchanged                     -- 'ArrayType element count appears unchanged ...'

/-- One `val_results` row (line 139 and 4.1 of the module docstring). -/
structure DiffRecord where
  key_tag : String
  old_val : Shown
  old_val_type : VType
  new_val : Shown
  new_val_type : VType
  diff : List Msg

/-- `self.compare_dict` — the four category buckets, each in append order. -/
structure CompareDict where
  dropped : List DiffRecord
  new : List DiffRecord
  changed : List DiffRecord
  same : List DiffRecord

def emptyCD : CompareDict := ⟨[], [], [], []⟩

def addRec (cd : CompareDict) (c : Cat) (r : DiffRecord) : CompareDict :=
  match c with
  | .dropped => { cd with dropped := cd.dropped ++ [r] }
  | .new => { cd with new := cd.new ++ [r] }
  | .changed => { cd with changed := cd.changed ++ [r] }
  | .same => { cd with same := cd.same ++ [r] }

/-- Lines 212-214 / 234-236: bucket-preserving merge of a child's
`compare_dict` into the parent's. -/
def mergeCD (a b : CompareDict) : CompareDict :=
  ⟨a.dropped ++ b.dropped, a.new ++ b.new, a.changed ++ b.changed, a.same ++ b.same⟩

/-- The observable state of a finished `Json_Dict_Compare_obj`: its
`compare_dict`, final `result_tag`, final `diff_msg_lt` and the two side
types. -/
structure NodeState where
  cd : CompareDict
  tag : Cat
  msgs : List Msg
  oty : VType
  nty : VType

/-! ## The node comparator -/

/-- Lines 150-165 before any drilldown: absence check, then type check. -/
def phaseA (o n : Option Json) (oty nty : VType) : List Msg × Cat :=
  if o.isNone || n.isNone then
    if o.isNone then ([.keyNotInOld], .new) else ([.keyNotInNew], .dropped)
  else if oty = nty then ([.typeUnchanged oty], .same)
  else ([.typeChanged oty nty], .changed)

/-- The message/category evolution of the leaf block, lines 166-184
(`container_cnt == 0`). -/
def leafMT (o n : Option Json) (oty nty : VType) (oshow nshow : Shown)
    (frac : ℚ) (ms : List Msg) (tg : Cat) : List Msg × Cat :=
  let fd := test_value_diff o n
  if fd.1 && o.isSome && n.isSome then
    let mt2 : List Msg × Cat :=
      if fd.2 = DiffVal.tt ∧ oty = .string ∧ nty = .string then
        (ms ++ [.stringUnchanged], tg)
      else if fd.2 = DiffVal.ff then
        (ms ++ [.stringChanged oshow nshow], Cat.changed)
      else (ms, tg)
    match pyFloatSide o with
    | some x =>
      if pfLeB (pyAbs fd.2) (pfAbs (pfMulQ x frac)) then
        (mt2.1 ++ [.numDiffNotSig fd.2], mt2.2)
      else (mt2.1 ++ [.numDiffSig fd.2], Cat.changed)
    | none => mt2
  else if fd.1 = false then (ms ++ [.cannotCompare], tg)
  else (ms, tg)

/-- Lines 166-184, the leaf block: the one record is appended to the final
`result_tag` bucket. -/
def leafStep (kt : String) (o n : Option Json) (oty nty : VType)
    (oshow nshow : Shown) (frac : ℚ) (ms : List Msg) (tg : Cat) : NodeState :=
  let mt := leafMT o n oty nty oshow nshow frac ms tg
  ⟨addRec emptyCD mt.2 ⟨kt, oshow, oty, nshow, nty, mt.1⟩, mt.2, mt.1, oty, nty⟩

/-- `sorted(self.old_val.keys())` guarded by the side's type being
`'object'` (lines 191-192). -/
def objKeysOf : Option Json → List String
  | some (.obj kvs) => pySorted (kvs.map Prod.fst)
  | _ => []

/-- `len(self.old_val)` guarded by the type being `'array'` (lines 216-218). -/
def arrLenOf : Option Json → Nat
  | some (.arr xs) => xs.length
  | _ => 0

/-- Lines 193-201: the object-summary message/category step. -/
def objSummary (oty nty : VType) (okeys nkeys : List String)
    (ms : List Msg) (tg : Cat) : List Msg × Cat :=
  if tg = Cat.new ∨ tg = Cat.dropped then (ms, tg)
  else if okeys.length ≠ nkeys.length ∨ okeys ≠ nkeys ∨ oty ≠ nty then
    (if okeys.length ≠ nkeys.length then ms ++ [.objKeyCount okeys.length nkeys.length]
     else if okeys ≠ nkeys then ms ++ [.objKeySet]
     else ms,
     Cat.changed)
  else (ms ++ [.objUnchanged], tg)

/-- Lines 219-224: the array-summary message/category step. -/
def arrSummary (oty nty : VType) (olen nlen : Nat)
    (ms : List Msg) (tg : Cat) : List Msg × Cat :=
  if tg = Cat.new ∨ tg = Cat.dropped then (ms, tg)
  else if olen ≠ nlen ∨ oty ≠ nty then
    (ms ++ [.arrCount olen nlen], Cat.changed)
  else (ms ++ [.arrUnchanged], tg)

/-- Lines 209-210: the child passed down for key `k` — present iff the side
is an object containing `k`. -/
def childOf (o : Option Json) (k : String) : Option Json :=
  match o with
  | some (.obj kvs) => lookupJ k kvs
  | _ => none

/-- Lines 231-232: the child at array position `i`. -/
def arrChildOf (o : Option Json) (i : Nat) : Option Json :=
  match o with
  | some (.arr xs) => xs[i]?
  | _ => none

/-- Lines 206-207: child key tag for object key `k`. -/
def objChildTag (kt k : String) : String :=
  if kt = "" then k else kt ++ ":" ++ k

/-- Lines 228-229: child key tag for array index `i`. -/
def arrChildTag (kt : String) (i : Nat) : String :=
  if kt = "" then "array elem " ++ toString i
  else kt ++ ":(array elem-" ++ toString i ++ ")"

def seqOpt {α : Type} : List (Option α) → Option (List α)
  | [] => some []
  | none :: _ => none
  | some a :: rest => (seqOpt rest).map (a :: ·)

/-- Messages/category after the object-summary step (lines 193-201),
applied only when an object occurs on either side. -/
def objMT (o n : Option Json) (oty nty : VType) (mt0 : List Msg × Cat) : List Msg × Cat :=
  if oty = VType.object ∨ nty = VType.object then
    objSummary oty nty (objKeysOf o) (objKeysOf n) mt0.1 mt0.2
  else mt0

/-- Messages/category after both summary steps (lines 193-224): the final
`(diff_msg_lt, result_tag)` of a container node. -/
def bothMT (o n : Option Json) (oty nty : VType) (mt0 : List Msg × Cat) : List Msg × Cat :=
  if oty = VType.array ∨ nty = VType.array then
    arrSummary oty nty (arrLenOf o) (arrLenOf n) (objMT o n oty nty mt0).1 (objMT o n oty nty mt0).2
  else objMT o n oty nty mt0

/-- The node's single `val_results` record, with the final message list (the
mutable dict is appended by reference, so the line-225 rewrite of the
`diff` entry is what both appended copies show). -/
def nodeRec0 (kt : String) (o n : Option Json) (oty nty : VType)
    (oshow nshow : Shown) (mt0 : List Msg × Cat) : DiffRecord :=
  ⟨kt, oshow, oty, nshow, nty, (bothMT o n oty nty mt0).1⟩

/-- The recursive calls issued by the object branch (lines 204-211), in the
order of the sorted, deduplicated union of the two key sets. -/
def objCalls (rc : String → Option Json → Option Json → Option NodeState)
    (kt : String) (o n : Option Json) : List (Option NodeState) :=
  (pySorted (pyDedup (objKeysOf o ++ objKeysOf n))).map (fun k =>
    rc (objChildTag kt k) (childOf o k) (childOf n k))

/-- The recursive calls issued by the array branch (lines 227-233), one per
position in `range(max(old_length, new_length))`. -/
def arrCalls (rc : String → Option Json → Option Json → Option NodeState)
    (kt : String) (o n : Option Json) : List (Option NodeState) :=
  (List.range (Nat.max (arrLenOf o) (arrLenOf n))).map (fun idx =>
    rc (arrChildTag kt idx) (arrChildOf o idx) (arrChildOf n idx))

/-- `container_drilldown` (lines 188-236), parametrized over the recursive
call `rc` used for the child nodes.

Two Python aliasing facts are captured: the single `val_results` dict of a
node is appended **by reference**, so when both an object side and an array
side are present the same record lands in two buckets (appended once by the
object branch under the category current at line 203, once by the array
branch at line 226), and its `diff` field shows the final message list (the
line-225 rewrite overwrites the snapshot taken at line 202). -/
def drillStep (rc : String → Option Json → Option Json → Option NodeState)
    (kt : String) (o n : Option Json) (oty nty : VType)
    (oshow nshow : Shown) (mt0 : List Msg × Cat) : Option NodeState :=
  let hasObj := oty = VType.object ∨ nty = VType.object
  let hasArr := oty = VType.array ∨ nty = VType.array
  let rec0 := nodeRec0 kt o n oty nty oshow nshow mt0
  let cd0 := if hasObj ∧ kt ≠ "" then addRec emptyCD (objMT o n oty nty mt0).2 rec0 else emptyCD
  match (if hasObj then seqOpt (objCalls rc kt o n) else some []) with
  | none => none
  | some objKids =>
    let cd1 := objKids.foldl (fun acc st => mergeCD acc st.cd) cd0
    let cd2 := if hasArr then addRec cd1 (bothMT o n oty nty mt0).2 rec0 else cd1
    match (if hasArr then seqOpt (arrCalls rc kt o n) else some []) with
    | none => none
    | some arrKids =>
      let cd3 := arrKids.foldl (fun acc st => mergeCD acc st.cd) cd2
      some ⟨cd3, (bothMT o n oty nty mt0).2, (bothMT o n oty nty mt0).1, oty, nty⟩

/-- The `Json_Dict_Compare_obj` constructor (lines 107-186) together with
`container_drilldown` (lines 188-236), as one fuel-indexed recursion.  The
fuel strictly dominates the recursion depth and is never exhausted when
called through `compareNode`.  A `none` result models an escaping Python
exception (the `type_dict` `KeyError` on a `long`). -/
def compareFuel : Nat → String → Option Json → Option Json → ℚ → Option NodeState
  | 0, _, _, _, _ => none
  | f+1, kt, o, n, frac =>
    match sideType o with
    | none => none
    | some oty =>
      match sideType n with
      | none => none
      | some nty =>
        let oshow := showSide o oty
        let nshow := showSide n nty
        let mt0 := phaseA o n oty nty
        if containerCnt oty nty = 0 then
          some (leafStep kt o n oty nty oshow nshow frac mt0.1 mt0.2)
        else
          drillStep (fun kt2 o2 n2 => compareFuel f kt2 o2 n2 frac)
            kt o n oty nty oshow nshow mt0

/-- The `type_dict` type of a value ignoring the missing-`LongType` crash;
it agrees with `typeDict` exactly on values whose integers are in the
CPython machine-int range. -/
def vtypeT : Json → VType
  | .s _ => .string
  | .i _ => .integer
  | .arr _ => .array
  | .b _ => .boolean
  | .num _ => .number
  | .obj _ => .object
  | .null => .noneT

def sideTypeT : Option Json → VType
  | none => .dash
  | some j => vtypeT j

/-- The final `(diff_msg_lt, result_tag)` of a node, as a pure function of
the node's own data (no recursion: the children never write back into the
parent's fields). -/
def nodeMT (o n : Option Json) (frac : ℚ) : List Msg × Cat :=
  let oty := sideTypeT o
  let nty := sideTypeT n
  let mt0 := phaseA o n oty nty
  if containerCnt oty nty = 0 then
    leafMT o n oty nty (showSide o oty) (showSide n nty) frac mt0.1 mt0.2
  else
    bothMT o n oty nty mt0

/-- One invocation of the node comparator
`Json_Dict_Compare_obj(key_tag, old_keyval, new_keyval, sig_diff_frac)`,
with `none` as the absence marker `False` and `some v` as `{key_tag: v}`. -/
def compareNode (kt : String) (o n : Option Json) (frac : ℚ) : Option NodeState :=
  compareFuel (osize o + osize n + 1) kt o n frac

/-- A full comparison of two parsed trees:
`Json_Dict_Compare_obj('', {'': old}, {'': new}, frac)` — exactly how
`example_compare_json_files` invokes the engine after `json.load`. -/
def jsonCompare (oldTree newTree : Json) (frac : ℚ) : Option NodeState :=
  compareNode "" (some oldTree) (some newTree) frac

/-! ## The tree addresser (`address_nested_data.py`)

`value_drilldown` walks a parsed value and yields `(address, value)` pairs
for every non-container; `address_json` parses a file and drives the walk
from the root dictionary's items.  File parsing is modelled away: the
embedded entry point takes the parsed root value.  Addresses are tuples of
property names and array indices; only scalars are ever yielded. -/

inductive JKey where
  | str (s : String)
  | idx (n : Nat)
deriving DecidableEq, Repr

/-- A scalar leaf value as yielded by the addresser
(`isinstance(value, (bool, float, int, str, type(None)))`). -/
inductive SVal where
  | null
  | b (x : Bool)
  | i (n : Int)
  | num (q : ℚ)
  | s (t : String)
deriving DecidableEq, Repr

abbrev Address := List JKey

abbrev AV := Address × SVal

mutual

def value_drilldown (a : Address) : Json → List AV
  | .null => [(a, .null)]
  | .b x => [(a, .b x)]
  | .i n => [(a, .i n)]
  | .num q => [(a, .num q)]
  | .s t => [(a, .s t)]
  | .arr xs => drillArr a 0 xs
  | .obj kvs => drillObj a kvs

def drillArr (a : Address) (cnt : Nat) : List Json → List AV
  | [] => []
  | x :: xs => value_drilldown (a ++ [.idx cnt]) x ++ drillArr a (cnt + 1) xs

def drillObj (a : Address) : List (String × Json) → List AV
  | [] => []
  | p :: rest => value_drilldown (a ++ [.str p.1]) p.2 ++ drillObj a rest

end

/-- `address_json` after `json.load`: iterate `j_dict.items()` and drill
down from each root key.  A non-dictionary root has no `.items()` and the
call raises `AttributeError`, modelled as `none`. -/
def address_json_mem : Json → Option (List AV)
  | .obj kvs => some (drillObj [] kvs)
  | _ => none

/-! ## The traversal rule as the specification words it (claim C7)

Modelled from the spec: "for an object/map node, iterate its key-value
pairs and append the key to the address prefix; for an array node, iterate
elements by position and append the index; for a scalar node, terminate and
emit (current address, value); empty containers emit nothing". -/

mutual

def specAddress (pre : Address) : Json → List AV
  | .obj kvs => specFields pre kvs
  | .arr xs => specElems pre 0 xs
  | .null => [(pre, .null)]
  | .b x => [(pre, .b x)]
  | .i n => [(pre, .i n)]
  | .num q => [(pre, .num q)]
  | .s t => [(pre, .s t)]

def specFields (pre : Address) : List (String × Json) → List AV
  | [] => []
  | (k, v) :: rest => specAddress (pre ++ [.str k]) v ++ specFields pre rest

def specElems (pre : Address) (pos : Nat) : List Json → List AV
  | [] => []
  | v :: rest => specAddress (pre ++ [.idx pos]) v ++ specElems pre (pos + 1) rest

end

/-! ## `AddressedValueSet` (`compare_nested_data.py`)

Python `set` is modelled as `Finset`.  A source argument is either an
existing `AddressedValueSet` or a raw set of `AddressedValue`; the
file-path source kind re-parses a file and is modelled away.
`_addressedvalueset_logic` reads the receiver's set, builds the result set,
writes it into a freshly constructed object and returns that object; the
embedding passes the receiver state explicitly and returns the (new object,
receiver after the call) pair so that the frame property is a statement,
not an assumption. -/

structure AddressedValueSet where
  addressed_values : Finset AV

inductive AVSInput where
  | avs (a : AddressedValueSet)
  | raw (s : Finset AV)

/-- `get_addressedvalue_sets`, restricted to the in-memory source kinds. -/
def getAddressedValueSets (input_data : List AVSInput) : List (Finset AV) :=
  input_data.map (fun d =>
    match d with
    | .avs a => a.addressed_values
    | .raw s => s)

inductive SetOp where
  | union | inter | diff | symmDiff

/-- `_addressedvalueset_logic` (lines 43-59): Python's
`A.union(*sets)` is `A ∪ s₁ ∪ ⋯`, `A.intersection(*sets)` is
`A ∩ s₁ ∩ ⋯`, `A.difference(*sets)` is `A \ s₁ \ ⋯`, and the
symmetric-difference branch computes `union.difference(intersection)`.
The second component of the result is the receiver's state after the call:
the method only ever reads `self.addressed_values`. -/
def avsLogic (self : AddressedValueSet) (dataset : List AVSInput) (op : SetOp) :
    AddressedValueSet × AddressedValueSet :=
  let sets := getAddressedValueSets dataset
  let result : Finset AV :=
    match op with
    | .union => sets.foldl (· ∪ ·) self.addressed_values
    | .inter => sets.foldl (· ∩ ·) self.addressed_values
    | .diff => sets.foldl (· \ ·) self.addressed_values
    | .symmDiff =>
      (sets.foldl (· ∪ ·) self.addressed_values) \
        (sets.foldl (· ∩ ·) self.addressed_values)
  (⟨result⟩, self)

def AddressedValueSet.union (self : AddressedValueSet) (args : List AVSInput) :
    AddressedValueSet × AddressedValueSet :=
  avsLogic self args .union

def AddressedValueSet.intersection (self : AddressedValueSet) (args : List AVSInput) :
    AddressedValueSet × AddressedValueSet :=
  avsLogic self args .inter

def AddressedValueSet.difference (self : AddressedValueSet) (args : List AVSInput) :
    AddressedValueSet × AddressedValueSet :=
  avsLogic self args .diff

def AddressedValueSet.symmetric_difference (self : AddressedValueSet) (args : List AVSInput) :
    AddressedValueSet × AddressedValueSet :=
  avsLogic self args .symmDiff

/-! ## Trees whose integers CPython 2 stores as `int` (not `long`)

Every value reachable inside such a tree has a `type_dict` entry, so the
engine never hits the missing-`LongType` `KeyError`. -/

inductive IntsOk : Json → Prop
  | null : IntsOk .null
  | b (x : Bool) : IntsOk (.b x)
  | i (n : Int) : pyIntOk n → IntsOk (.i n)
  | num (q : ℚ) : IntsOk (.num q)
  | s (t : String) : IntsOk (.s t)
  | arr (xs : List Json) : (∀ x ∈ xs, IntsOk x) → IntsOk (.arr xs)
  | obj (kvs : List (String × Json)) : (∀ p ∈ kvs, IntsOk p.2) → IntsOk (.obj kvs)

/-- `IntsOk` lifted to an optional side: absent sides are fine. -/
def IntsOkS : Option Json → Prop
  | none => True
  | some j => IntsOk j

/-! ## Trees none of whose leaves coerce to an infinity or NaN

At such a leaf a self-comparison computes `diff = nan` (`inf - inf`, or
`nan - nan`), `abs(nan) <= threshold` is false, and the record is marked
`changed` — so the self-diff identity needs this restriction on top of
`IntsOk`.  Strings such as `"inf"`, `"nan"` or `"1e999"` and number
literals beyond the double range are the offenders; machine integers always
coerce to finite doubles. -/

inductive FinOk : Json → Prop
  | null : FinOk .null
  | b (x : Bool) : FinOk (.b x)
  | i (n : Int) : finOrNone (pyFloat (.i n)) = true → FinOk (.i n)
  | num (q : ℚ) : finOrNone (pyFloat (.num q)) = true → FinOk (.num q)
  | s (t : String) : finOrNone (pyFloat (.s t)) = true → FinOk (.s t)
  | arr (xs : List Json) : (∀ x ∈ xs, FinOk x) → FinOk (.arr xs)
  | obj (kvs : List (String × Json)) : (∀ p ∈ kvs, FinOk p.2) → FinOk (.obj kvs)

/-- `FinOk` lifted to an optional side. -/
def FinOkS : Option Json → Prop
  | none => True
  | some j => FinOk j

/-! ## Per-node record accounting (claim C5)

`contribOf` states how many records a single node appends for itself, read
off the traversal rule: one for a non-container node, plus one object
summary when an object occurs on either side and the node's key tag is
nonempty, plus one array summary when an array occurs on either side.
`nodeSumFuel` sums `contribOf` over the visited tree, using only the
traversal skeleton (side types, key sets, lengths). -/

def contribOf (kt : String) (oty nty : VType) : Nat :=
  if containerCnt oty nty = 0 then 1
  else
    (if (oty = VType.object ∨ nty = VType.object) ∧ kt ≠ "" then 1 else 0) +
    (if oty = VType.array ∨ nty = VType.array then 1 else 0)

def nodeSumFuel : Nat → String → Option Json → Option Json → Nat
  | 0, _, _, _ => 0
  | f+1, kt, o, n =>
    let oty := sideTypeT o
    let nty := sideTypeT n
    if containerCnt oty nty = 0 then 1
    else
      let hasObj := oty = VType.object ∨ nty = VType.object
      let hasArr := oty = VType.array ∨ nty = VType.array
      let okeys := objKeysOf o
      let nkeys := objKeysOf n
      let combined := pySorted (pyDedup (okeys ++ nkeys))
      contribOf kt oty nty +
      (if hasObj then
         (combined.map (fun k =>
           nodeSumFuel f (objChildTag kt k) (childOf o k) (childOf n k))).sum
       else 0) +
      (if hasArr then
         ((List.range (Nat.max (arrLenOf o) (arrLenOf n))).map (fun idx =>
           nodeSumFuel f (arrChildTag kt idx) (arrChildOf o idx) (arrChildOf n idx))).sum
       else 0)

def nodeSum (kt : String) (o n : Option Json) : Nat :=
  nodeSumFuel (osize o + osize n + 1) kt o n

/-- Total number of records in a `compare_dict`, across all four buckets. -/
def cdTotal (cd : CompareDict) : Nat :=
  cd.dropped.length + cd.new.length + cd.changed.length + cd.same.length

/-! ## Basic lemmas about sizes, lookups and list plumbing -/

theorem jsize_pos (j : Json) : 1 ≤ jsize j := by
  cases j <;> simp [jsize]

theorem jsizeL_mem {x : Json} {xs : List Json} (h : x ∈ xs) : jsize x ≤ jsizeL xs := by
  induction xs with
  | nil => simp at h
  | cons y ys ih =>
    simp only [List.mem_cons] at h
    rcases h with rfl | h
    · simp [jsizeL]
    · have := ih h
      simp only [jsizeL]
      omega

theorem jsizeO_mem {p : String × Json} {kvs : List (String × Json)} (h : p ∈ kvs) :
    jsize p.2 ≤ jsizeO kvs := by
  induction kvs with
  | nil => simp at h
  | cons q qs ih =>
    simp only [List.mem_cons] at h
    rcases h with rfl | h
    · simp [jsizeO]
    · have := ih h
      simp only [jsizeO]
      omega

theorem lookupJ_mem {k : String} {kvs : List (String × Json)} {v : Json}
    (h : lookupJ k kvs = some v) : ∃ p ∈ kvs, p.1 = k ∧ p.2 = v := by
  induction kvs with
  | nil => simp [lookupJ] at h
  | cons p ps ih =>
    simp only [lookupJ] at h
    split at h
    · exact ⟨p, by simp, by simp_all⟩
    · obtain ⟨q, hq, h1, h2⟩ := ih h
      exact ⟨q, by simp [hq], h1, h2⟩

theorem lookupJ_isSome_of_mem {k : String} {kvs : List (String × Json)}
    (h : k ∈ kvs.map Prod.fst) : ∃ v, lookupJ k kvs = some v := by
  induction kvs with
  | nil => simp at h
  | cons p ps ih =>
    by_cases hk : k = p.1
    · exact ⟨p.2, by simp [lookupJ, hk]⟩
    · simp only [List.map_cons, List.mem_cons] at h
      rcases h with h | h
      · exact absurd h hk
      · obtain ⟨v, hv⟩ := ih h
        exact ⟨v, by simp [lookupJ, hk, hv]⟩

theorem lookupJ_size {k : String} {kvs : List (String × Json)} {v : Json}
    (h : lookupJ k kvs = some v) : jsize v < jsize (Json.obj kvs) := by
  obtain ⟨p, hp, _, hv⟩ := lookupJ_mem h
  have := jsizeO_mem hp
  rw [← hv]
  simp only [jsize]
  omega

theorem getElem?_size {xs : List Json} {i : Nat} {v : Json} (h : xs[i]? = some v) :
    jsize v < jsize (Json.arr xs) := by
  have hm : v ∈ xs := by
    have := List.getElem?_eq_some.mp h
    obtain ⟨hlt, hv⟩ := this
    exact hv ▸ List.getElem_mem hlt
  have := jsizeL_mem hm
  simp only [jsize]
  omega

theorem childOf_size {o : Option Json} {k : String} {v : Json}
    (h : childOf o k = some v) : jsize v < osize o := by
  cases o with
  | none => simp [childOf] at h
  | some j =>
    cases j <;> simp [childOf] at h
    simpa [osize] using lookupJ_size h

theorem arrChildOf_size {o : Option Json} {i : Nat} {v : Json}
    (h : arrChildOf o i = some v) : jsize v < osize o := by
  cases o with
  | none => simp [arrChildOf] at h
  | some j =>
    cases j <;> simp [arrChildOf] at h
    simpa [osize] using getElem?_size h

theorem mem_insertLe {a b : String} {l : List String} :
    b ∈ insertLe a l ↔ b = a ∨ b ∈ l := by
  induction l with
  | nil => simp [insertLe]
  | cons c cs ih =>
    simp only [insertLe]
    split
    · simp [List.mem_cons]
    · simp only [List.mem_cons, ih]
      tauto

theorem mem_pySorted {b : String} {l : List String} : b ∈ pySorted l ↔ b ∈ l := by
  induction l with
  | nil => simp [pySorted]
  | cons a as ih => simp [pySorted, mem_insertLe, ih]

theorem mem_pyDedup {b : String} {l : List String} : b ∈ pyDedup l ↔ b ∈ l := by
  induction l with
  | nil => simp [pyDedup]
  | cons a as ih =>
    simp only [pyDedup]
    split
    · next h =>
      simp only [ih, List.mem_cons]
      exact ⟨fun h2 => Or.inr h2, fun h2 => h2.elim (fun e => e ▸ h) id⟩
    · simp [List.mem_cons, ih]

theorem seqOpt_exists_of_all {α : Type} {l : List (Option α)} (h : ∀ x ∈ l, ∃ a, x = some a) :
    ∃ ys, seqOpt l = some ys := by
  induction l with
  | nil => exact ⟨[], rfl⟩
  | cons x xs ih =>
    obtain ⟨a, ha⟩ := h x (by simp)
    obtain ⟨ys, hys⟩ := ih (fun y hy => h y (by simp [hy]))
    subst ha
    exact ⟨a :: ys, by simp [seqOpt, hys]⟩

theorem seqOpt_mem {α : Type} {l : List (Option α)} {ys : List α} (h : seqOpt l = some ys)
    {y : α} (hy : y ∈ ys) : some y ∈ l := by
  induction l generalizing ys with
  | nil =>
    simp only [seqOpt, Option.some.injEq] at h
    subst h
    simp at hy
  | cons x xs ih =>
    cases x with
    | none => simp [seqOpt] at h
    | some a =>
      simp only [seqOpt, Option.map_eq_some'] at h
      obtain ⟨zs, hzs, hys⟩ := h
      subst hys
      rcases List.mem_cons.mp hy with rfl | hy2
      · simp
      · simp [ih hzs hy2]

theorem seqOpt_map_forall {α β : Type} {l : List α} {g : α → Option β} {ys : List β}
    (h : seqOpt (l.map g) = some ys) {P : β → Prop}
    (hp : ∀ x ∈ l, ∀ st, g x = some st → P st) : ∀ st ∈ ys, P st := by
  intro st hst
  obtain ⟨x, hx, hgx⟩ := List.mem_map.mp (seqOpt_mem h hst)
  exact hp x hx st hgx

theorem seqOpt_map_sum {α β : Type} {l : List α} {g : α → Option β} {ys : List β}
    (F : β → Nat) (H : α → Nat)
    (h : seqOpt (l.map g) = some ys)
    (hp : ∀ x ∈ l, ∀ st, g x = some st → F st = H x) :
    (ys.map F).sum = (l.map H).sum := by
  induction l generalizing ys with
  | nil =>
    simp only [List.map_nil, seqOpt, Option.some.injEq] at h
    subst h
    simp
  | cons x xs ih =>
    simp only [List.map_cons] at h
    cases hgx : g x with
    | none => rw [hgx] at h; simp [seqOpt] at h
    | some st =>
      rw [hgx] at h
      simp only [seqOpt, Option.map_eq_some'] at h
      obtain ⟨zs, hzs, hys⟩ := h
      subst hys
      simp only [List.map_cons, List.sum_cons]
      rw [hp x (by simp) st hgx, ih hzs (fun y hy st2 hst2 => hp y (by simp [hy]) st2 hst2)]

theorem mergeCD_dropped (a b : CompareDict) : (mergeCD a b).dropped = a.dropped ++ b.dropped := rfl

theorem mergeCD_new (a b : CompareDict) : (mergeCD a b).new = a.new ++ b.new := rfl

theorem mergeCD_changed (a b : CompareDict) : (mergeCD a b).changed = a.changed ++ b.changed := rfl

theorem mergeCD_same (a b : CompareDict) : (mergeCD a b).same = a.same ++ b.same := rfl

theorem cdTotal_addRec (cd : CompareDict) (c : Cat) (r : DiffRecord) :
    cdTotal (addRec cd c r) = cdTotal cd + 1 := by
  cases c <;> simp [cdTotal, addRec] <;> omega

theorem cdTotal_mergeCD (a b : CompareDict) : cdTotal (mergeCD a b) = cdTotal a + cdTotal b := by
  simp [cdTotal, mergeCD]
  omega

theorem cdTotal_foldl (kids : List NodeState) (acc : CompareDict) :
    cdTotal (kids.foldl (fun a st => mergeCD a st.cd) acc) =
      cdTotal acc + (kids.map (fun st => cdTotal st.cd)).sum := by
  induction kids generalizing acc with
  | nil => simp
  | cons st sts ih =>
    simp only [List.foldl_cons, List.map_cons, List.sum_cons, ih, cdTotal_mergeCD]
    omega

theorem foldl_buckets_empty {kids : List NodeState} {acc : CompareDict}
    (hacc : acc.changed = [] ∧ acc.new = [] ∧ acc.dropped = [])
    (hk : ∀ st ∈ kids, st.cd.changed = [] ∧ st.cd.new = [] ∧ st.cd.dropped = []) :
    (kids.foldl (fun a st => mergeCD a st.cd) acc).changed = [] ∧
    (kids.foldl (fun a st => mergeCD a st.cd) acc).new = [] ∧
    (kids.foldl (fun a st => mergeCD a st.cd) acc).dropped = [] := by
  induction kids generalizing acc with
  | nil => exact hacc
  | cons st sts ih =>
    simp only [List.foldl_cons]
    have hst := hk st (by simp)
    refine ih ?_ (fun s hs => hk s (by simp [hs]))
    simp [mergeCD_changed, mergeCD_new, mergeCD_dropped, hacc.1, hacc.2.1, hacc.2.2,
      hst.1, hst.2.1, hst.2.2]

/-! ## Lemmas about the float model -/

theorem roundRes_abs_le (neg : Bool) (m : Nat) (g : Int) (over : Bool) :
    pfLeB (.finite 0 0) (pfAbs (roundRes neg m g over)) = true := by
  unfold roundRes
  split
  · split <;> simp [pfAbs, pfLeB]
  · simp only [pfAbs, pfLeB]
    rw [decide_eq_true_iff]
    simp only [zero_mul]
    split <;> positivity

theorem roundRat_abs_le (s : Bool) (n d : Nat) :
    pfLeB (.finite 0 0) (pfAbs (roundRat s n d)) = true := by
  unfold roundRat
  split
  · simp [pfAbs, pfLeB]
  · exact roundRes_abs_le _ _ _ _

theorem pfSub_self (m g : Int) : pfSub (.finite m g) (.finite m g) = .finite 0 0 := by
  simp [pfSub, roundPair, roundRat]

theorem pfAbs_zero : pfAbs (.finite 0 0) = .finite 0 0 := rfl

theorem pfMulQ_finite_ex (m g : Int) (frac : ℚ) :
    ∃ s nn dd, pfMulQ (.finite m g) frac = roundRat s nn dd := by
  by_cases hg : (0:Int) ≤ g
  · exact ⟨decide (m * frac.num < 0), (m * frac.num).natAbs * 2 ^ g.toNat, frac.den,
      by simp [pfMulQ, hg]⟩
  · exact ⟨decide (m * frac.num < 0), (m * frac.num).natAbs, frac.den * 2 ^ (-g).toNat,
      by simp [pfMulQ, hg]⟩

theorem tenth_def : (1/10 : ℚ) = tenth := by
  rw [← Rat.num_div_den tenth]
  norm_num [tenth]

/-! ## Lemmas about types and `IntsOk` -/

theorem typeDict_vtypeT {j : Json} {t : VType} (h : typeDict j = some t) : vtypeT j = t := by
  cases j <;> simp only [typeDict, Option.some.injEq] at h <;> try (exact h ▸ rfl)
  next n =>
    split at h
    · simp only [Option.some.injEq] at h
      exact h ▸ rfl
    · simp at h

theorem typeDict_of_IntsOk {j : Json} (h : IntsOk j) : typeDict j = some (vtypeT j) := by
  cases h <;> simp only [typeDict, vtypeT]
  next n hn => simp [hn]

theorem sideType_of_IntsOkS {o : Option Json} (h : IntsOkS o) :
    sideType o = some (sideTypeT o) := by
  cases o with
  | none => rfl
  | some j => exact typeDict_of_IntsOk h

theorem IntsOk_childOf {o : Option Json} {k : String} {v : Json}
    (ho : IntsOkS o) (h : childOf o k = some v) : IntsOk v := by
  cases o with
  | none => simp [childOf] at h
  | some j =>
    cases j <;> simp [childOf] at h
    next kvs =>
      obtain ⟨p, hp, _, hv⟩ := lookupJ_mem h
      have ho2 : IntsOk (Json.obj kvs) := ho
      cases ho2 with
      | obj _ h2 => exact hv ▸ h2 p hp

theorem IntsOk_arrChildOf {o : Option Json} {i : Nat} {v : Json}
    (ho : IntsOkS o) (h : arrChildOf o i = some v) : IntsOk v := by
  cases o with
  | none => simp [arrChildOf] at h
  | some j =>
    cases j <;> simp [arrChildOf] at h
    next xs =>
      have hm : v ∈ xs := by
        obtain ⟨hlt, hv⟩ := List.getElem?_eq_some.mp h
        exact hv ▸ List.getElem_mem hlt
      have ho2 : IntsOk (Json.arr xs) := ho
      cases ho2 with
      | arr _ h2 => exact h2 v hm

theorem IntsOkS_childOf {o : Option Json} (k : String) (ho : IntsOkS o) :
    IntsOkS (childOf o k) := by
  cases hc : childOf o k with
  | none => trivial
  | some v => exact IntsOk_childOf ho hc

theorem IntsOkS_arrChildOf {o : Option Json} (i : Nat) (ho : IntsOkS o) :
    IntsOkS (arrChildOf o i) := by
  cases hc : arrChildOf o i with
  | none => trivial
  | some v => exact IntsOk_arrChildOf ho hc

theorem FinOk_fin {j : Json} (h : FinOk j) : finOrNone (pyFloat j) = true := by
  cases h with
  | null => rfl
  | b x => rfl
  | i n h2 => exact h2
  | num q h2 => exact h2
  | s t h2 => exact h2
  | arr xs _ => rfl
  | obj kvs _ => rfl

theorem FinOk_lookupJ {kvs : List (String × Json)} {k : String} {w : Json}
    (hf : FinOk (Json.obj kvs)) (hw : lookupJ k kvs = some w) : FinOk w := by
  obtain ⟨p, hp, _, hv⟩ := lookupJ_mem hw
  cases hf with
  | obj _ h2 => exact hv ▸ h2 p hp

theorem FinOk_getElem {xs : List Json} {i : Nat} {w : Json}
    (hf : FinOk (Json.arr xs)) (hw : xs[i]? = some w) : FinOk w := by
  have hm : w ∈ xs := by
    obtain ⟨hlt, hv⟩ := List.getElem?_eq_some.mp hw
    exact hv ▸ List.getElem_mem hlt
  cases hf with
  | arr _ h2 => exact h2 w hm

theorem osize_pos_of_cont {o : Option Json} (h : isCont (sideTypeT o) = true) : 1 ≤ osize o := by
  cases o with
  | none => simp [sideTypeT, isCont] at h
  | some j => exact jsize_pos j

theorem osize_none : osize none = 0 := rfl

theorem osize_some (j : Json) : osize (some j) = jsize j := rfl

theorem childOf_mu_lt {o n : Option Json} (k : String) (hpos : 1 ≤ osize o + osize n) :
    osize (childOf o k) + osize (childOf n k) < osize o + osize n := by
  cases ho : childOf o k with
  | none =>
    cases hn : childOf n k with
    | none => rw [osize_none]; omega
    | some v =>
      have := childOf_size hn
      rw [osize_none, osize_some]
      omega
  | some v =>
    have h1 := childOf_size ho
    cases hn : childOf n k with
    | none => rw [osize_none, osize_some]; omega
    | some w =>
      have h2 := childOf_size hn
      rw [osize_some, osize_some]
      omega

theorem arrChildOf_mu_lt {o n : Option Json} (i : Nat) (hpos : 1 ≤ osize o + osize n) :
    osize (arrChildOf o i) + osize (arrChildOf n i) < osize o + osize n := by
  cases ho : arrChildOf o i with
  | none =>
    cases hn : arrChildOf n i with
    | none => rw [osize_none]; omega
    | some v =>
      have := arrChildOf_size hn
      rw [osize_none, osize_some]
      omega
  | some v =>
    have h1 := arrChildOf_size ho
    cases hn : arrChildOf n i with
    | none => rw [osize_none, osize_some]; omega
    | some w =>
      have h2 := arrChildOf_size hn
      rw [osize_some, osize_some]
      omega

/-! ## Unfolding and characterization lemmas for the comparator -/

theorem compareFuel_succ (f : Nat) (kt : String) (o n : Option Json) (frac : ℚ) :
    compareFuel (f+1) kt o n frac =
      match sideType o with
      | none => none
      | some oty =>
        match sideType n with
        | none => none
        | some nty =>
          if containerCnt oty nty = 0 then
            some (leafStep kt o n oty nty (showSide o oty) (showSide n nty) frac
              (phaseA o n oty nty).1 (phaseA o n oty nty).2)
          else
            drillStep (fun kt2 o2 n2 => compareFuel f kt2 o2 n2 frac)
              kt o n oty nty (showSide o oty) (showSide n nty) (phaseA o n oty nty) := rfl

theorem compareFuel_succ_types {f : Nat} {kt : String} {o n : Option Json} {frac : ℚ}
    {oty nty : VType} (ho : sideType o = some oty) (hn : sideType n = some nty) :
    compareFuel (f+1) kt o n frac =
      if containerCnt oty nty = 0 then
        some (leafStep kt o n oty nty (showSide o oty) (showSide n nty) frac
          (phaseA o n oty nty).1 (phaseA o n oty nty).2)
      else
        drillStep (fun kt2 o2 n2 => compareFuel f kt2 o2 n2 frac)
          kt o n oty nty (showSide o oty) (showSide n nty) (phaseA o n oty nty) := by
  rw [compareFuel_succ, ho, hn]

theorem sideTypeT_of_sideType {o : Option Json} {oty : VType}
    (h : sideType o = some oty) : sideTypeT o = oty := by
  cases o with
  | none =>
    simp only [sideType, Option.some.injEq] at h
    simp [sideTypeT, h]
  | some j => exact typeDict_vtypeT h

theorem cont_cases {a b : VType} (h : ¬ containerCnt a b = 0) :
    isCont a = true ∨ isCont b = true := by
  by_cases ha : isCont a <;> by_cases hb : isCont b <;> simp [containerCnt, ha, hb] at h ⊢

theorem drillStep_eq_some {rc : String → Option Json → Option Json → Option NodeState}
    {kt : String} {o n : Option Json} {oty nty : VType} {os ns : Shown}
    {mt0 : List Msg × Cat} {objKids arrKids : List NodeState}
    (hobj : (if oty = VType.object ∨ nty = VType.object then
               seqOpt (objCalls rc kt o n) else some []) = some objKids)
    (harr : (if oty = VType.array ∨ nty = VType.array then
               seqOpt (arrCalls rc kt o n) else some []) = some arrKids) :
    drillStep rc kt o n oty nty os ns mt0 =
      some ⟨arrKids.foldl (fun acc st => mergeCD acc st.cd)
              (if oty = VType.array ∨ nty = VType.array then
                 addRec (objKids.foldl (fun acc st => mergeCD acc st.cd)
                     (if (oty = VType.object ∨ nty = VType.object) ∧ kt ≠ "" then
                        addRec emptyCD (objMT o n oty nty mt0).2 (nodeRec0 kt o n oty nty os ns mt0)
                      else emptyCD))
                   (bothMT o n oty nty mt0).2 (nodeRec0 kt o n oty nty os ns mt0)
               else objKids.foldl (fun acc st => mergeCD acc st.cd)
                     (if (oty = VType.object ∨ nty = VType.object) ∧ kt ≠ "" then
                        addRec emptyCD (objMT o n oty nty mt0).2 (nodeRec0 kt o n oty nty os ns mt0)
                      else emptyCD)),
            (bothMT o n oty nty mt0).2, (bothMT o n oty nty mt0).1, oty, nty⟩ := by
  unfold drillStep
  simp only [hobj, harr]

theorem drillStep_state {rc : String → Option Json → Option Json → Option NodeState}
    {kt : String} {o n : Option Json} {oty nty : VType} {os ns : Shown}
    {mt0 : List Msg × Cat} {st : NodeState}
    (h : drillStep rc kt o n oty nty os ns mt0 = some st) :
    st.tag = (bothMT o n oty nty mt0).2 ∧ st.msgs = (bothMT o n oty nty mt0).1 ∧
    st.oty = oty ∧ st.nty = nty := by
  unfold drillStep at h
  cases h1 : (if oty = VType.object ∨ nty = VType.object then
      seqOpt (objCalls rc kt o n) else some []) with
  | none => simp [h1] at h
  | some objKids =>
    simp only [h1] at h
    cases h2 : (if oty = VType.array ∨ nty = VType.array then
        seqOpt (arrCalls rc kt o n) else some []) with
    | none => simp [h2] at h
    | some arrKids =>
      simp only [h2, Option.some.injEq] at h
      subst h
      exact ⟨rfl, rfl, rfl, rfl⟩

theorem compareFuel_total :
    ∀ f : Nat, ∀ (kt : String) (o n : Option Json) (frac : ℚ),
      osize o + osize n < f → IntsOkS o → IntsOkS n →
      ∃ st, compareFuel f kt o n frac = some st := by
  intro f
  induction f with
  | zero => intro kt o n frac hf _ _; omega
  | succ f ih =>
    intro kt o n frac hf ho hn
    rw [compareFuel_succ_types (sideType_of_IntsOkS ho) (sideType_of_IntsOkS hn)]
    by_cases hc : containerCnt (sideTypeT o) (sideTypeT n) = 0
    · rw [if_pos hc]
      exact ⟨_, rfl⟩
    · rw [if_neg hc]
      have hpos : 1 ≤ osize o + osize n := by
        rcases cont_cases hc with h | h
        · exact le_trans (osize_pos_of_cont h) (Nat.le_add_right _ _)
        · exact le_trans (osize_pos_of_cont h) (Nat.le_add_left _ _)
      have hf2 : osize o + osize n ≤ f := by omega
      have hobj : ∃ ks, (if sideTypeT o = VType.object ∨ sideTypeT n = VType.object then
          seqOpt (objCalls (fun kt2 o2 n2 => compareFuel f kt2 o2 n2 frac) kt o n)
          else some []) = some ks := by
        by_cases hO : sideTypeT o = VType.object ∨ sideTypeT n = VType.object
        · rw [if_pos hO]
          apply seqOpt_exists_of_all
          intro x hx
          simp only [objCalls, List.mem_map] at hx
          obtain ⟨k, _, rfl⟩ := hx
          apply ih
          · have := childOf_mu_lt k hpos
            omega
          · exact IntsOkS_childOf k ho
          · exact IntsOkS_childOf k hn
        · exact ⟨[], if_neg hO⟩
      have harr : ∃ ks, (if sideTypeT o = VType.array ∨ sideTypeT n = VType.array then
          seqOpt (arrCalls (fun kt2 o2 n2 => compareFuel f kt2 o2 n2 frac) kt o n)
          else some []) = some ks := by
        by_cases hA : sideTypeT o = VType.array ∨ sideTypeT n = VType.array
        · rw [if_pos hA]
          apply seqOpt_exists_of_all
          intro x hx
          simp only [arrCalls, List.mem_map] at hx
          obtain ⟨idx, _, rfl⟩ := hx
          apply ih
          · have := arrChildOf_mu_lt idx hpos
            omega
          · exact IntsOkS_arrChildOf idx ho
          · exact IntsOkS_arrChildOf idx hn
        · exact ⟨[], if_neg hA⟩
      obtain ⟨ks, hks⟩ := hobj
      obtain ⟨as2, has2⟩ := harr
      exact ⟨_, drillStep_eq_some hks has2⟩

theorem compareFuel_state {f : Nat} {kt : String} {o n : Option Json} {frac : ℚ}
    {st : NodeState} (h : compareFuel f kt o n frac = some st) :
    st.oty = sideTypeT o ∧ st.nty = sideTypeT n ∧
    st.msgs = (nodeMT o n frac).1 ∧ st.tag = (nodeMT o n frac).2 := by
  cases f with
  | zero => simp [compareFuel] at h
  | succ f =>
    cases hso : sideType o with
    | none => rw [compareFuel_succ, hso] at h; simp at h
    | some oty =>
      cases hsn : sideType n with
      | none => rw [compareFuel_succ, hso, hsn] at h; simp at h
      | some nty =>
        rw [compareFuel_succ_types hso hsn] at h
        have hoe := sideTypeT_of_sideType hso
        have hne := sideTypeT_of_sideType hsn
        by_cases hc : containerCnt oty nty = 0
        · rw [if_pos hc] at h
          simp only [Option.some.injEq] at h
          subst h
          subst hoe
          subst hne
          refine ⟨rfl, rfl, ?_, ?_⟩ <;> simp [nodeMT, leafStep, if_pos hc]
        · rw [if_neg hc] at h
          have := drillStep_state h
          subst hoe
          subst hne
          simp only [nodeMT, if_neg hc]
          exact ⟨this.2.2.1, this.2.2.2, this.2.1, this.1⟩

/-! ## Self-comparison lemmas (claim C1) -/

theorem phaseA_both (v w : Json) (a b : VType) :
    phaseA (some v) (some w) a b =
      if a = b then ([.typeUnchanged a], Cat.same) else ([.typeChanged a b], Cat.changed) := by
  simp [phaseA]

theorem leafMT_self_tag (v : Json) (t : VType) (os ns : Shown) (frac : ℚ) (ms : List Msg)
    (hfin : finOrNone (pyFloat v) = true) :
    (leafMT (some v) (some v) t t os ns frac ms Cat.same).2 = Cat.same := by
  cases hp : pyFloat v with
  | some x =>
    cases x with
    | finite m g =>
      obtain ⟨s2, nn, dd, he⟩ := pfMulQ_finite_ex m g frac
      unfold leafMT test_value_diff
      simp only [pyFloatSide, hp]
      simp [pfSub_self, pyAbs, pfAbs_zero, he, roundRat_abs_le]
    | inf => rw [hp] at hfin; simp [finOrNone] at hfin
    | neginf => rw [hp] at hfin; simp [finOrNone] at hfin
    | nan => rw [hp] at hfin; simp [finOrNone] at hfin
  | none =>
    unfold leafMT test_value_diff
    cases v with
    | s str =>
      simp only [pyFloat] at hp
      by_cases ht : t = VType.string <;>
        simp [pyFloatSide, pyFloat, hp, strOfSide, ht]
    | i nn => simp [pyFloat] at hp
    | num q => simp [pyFloat] at hp
    | b x => simp [pyFloatSide, pyFloat, strOfSide]
    | null => simp [pyFloatSide, pyFloat, strOfSide]
    | arr xs => simp [pyFloatSide, pyFloat, strOfSide]
    | obj kvs => simp [pyFloatSide, pyFloat, strOfSide]

theorem objSummary_self (t : VType) (ks : List String) (ms : List Msg) :
    objSummary t t ks ks ms Cat.same = (ms ++ [Msg.objUnchanged], Cat.same) := by
  simp [objSummary]

theorem arrSummary_self (t : VType) (l : Nat) (ms : List Msg) :
    arrSummary t t l l ms Cat.same = (ms ++ [Msg.arrUnchanged], Cat.same) := by
  simp [arrSummary]

theorem nodeMT_self_tag (v : Json) (frac : ℚ) (hfin : finOrNone (pyFloat v) = true) :
    (nodeMT (some v) (some v) frac).2 = Cat.same := by
  have hleaf := fun t os2 ns2 ms =>
    leafMT_self_tag v t os2 ns2 frac ms hfin
  cases v with
  | arr xs =>
    simp [nodeMT, sideTypeT, vtypeT, containerCnt, isCont, phaseA_both, bothMT, objMT,
      arrSummary_self]
  | obj kvs =>
    simp [nodeMT, sideTypeT, vtypeT, containerCnt, isCont, phaseA_both, bothMT, objMT,
      objSummary_self]
  | null =>
    simp [nodeMT, sideTypeT, vtypeT, containerCnt, isCont, phaseA_both, hleaf]
  | b x =>
    simp [nodeMT, sideTypeT, vtypeT, containerCnt, isCont, phaseA_both, hleaf]
  | i nn =>
    simp [nodeMT, sideTypeT, vtypeT, containerCnt, isCont, phaseA_both, hleaf]
  | num q =>
    simp [nodeMT, sideTypeT, vtypeT, containerCnt, isCont, phaseA_both, hleaf]
  | s str =>
    simp [nodeMT, sideTypeT, vtypeT, containerCnt, isCont, phaseA_both, hleaf]

theorem addRec_same_buckets (cd : CompareDict) (r : DiffRecord) :
    (addRec cd Cat.same r).changed = cd.changed ∧ (addRec cd Cat.same r).new = cd.new ∧
    (addRec cd Cat.same r).dropped = cd.dropped :=
  ⟨rfl, rfl, rfl⟩

theorem drillStep_buckets {rc : String → Option Json → Option Json → Option NodeState}
    {kt : String} {o n : Option Json} {oty nty : VType} {os ns : Shown}
    {mt0 : List Msg × Cat} {st : NodeState}
    (h : drillStep rc kt o n oty nty os ns mt0 = some st)
    (hA2 : (objMT o n oty nty mt0).2 = Cat.same)
    (hB2 : (bothMT o n oty nty mt0).2 = Cat.same)
    (hkobj : ∀ x ∈ objCalls rc kt o n, ∀ stx : NodeState, x = some stx →
      stx.cd.changed = [] ∧ stx.cd.new = [] ∧ stx.cd.dropped = [])
    (hkarr : ∀ x ∈ arrCalls rc kt o n, ∀ stx : NodeState, x = some stx →
      stx.cd.changed = [] ∧ stx.cd.new = [] ∧ stx.cd.dropped = []) :
    st.cd.changed = [] ∧ st.cd.new = [] ∧ st.cd.dropped = [] := by
  unfold drillStep at h
  cases h1 : (if oty = VType.object ∨ nty = VType.object then
      seqOpt (objCalls rc kt o n) else some []) with
  | none => simp [h1] at h
  | some objKids =>
    simp only [h1] at h
    cases h2 : (if oty = VType.array ∨ nty = VType.array then
        seqOpt (arrCalls rc kt o n) else some []) with
    | none => simp [h2] at h
    | some arrKids =>
      simp only [h2, Option.some.injEq] at h
      subst h
      have hops : ∀ stx ∈ objKids, stx.cd.changed = [] ∧ stx.cd.new = [] ∧ stx.cd.dropped = [] := by
        intro stx hstx
        by_cases hO : oty = VType.object ∨ nty = VType.object
        · rw [if_pos hO] at h1
          exact hkobj _ (seqOpt_mem h1 hstx) stx rfl
        · rw [if_neg hO] at h1
          simp only [Option.some.injEq] at h1
          subst h1
          simp at hstx
      have haps : ∀ stx ∈ arrKids, stx.cd.changed = [] ∧ stx.cd.new = [] ∧ stx.cd.dropped = [] := by
        intro stx hstx
        by_cases hA : oty = VType.array ∨ nty = VType.array
        · rw [if_pos hA] at h2
          exact hkarr _ (seqOpt_mem h2 hstx) stx rfl
        · rw [if_neg hA] at h2
          simp only [Option.some.injEq] at h2
          subst h2
          simp at hstx
      have hcd0 : ((if (oty = VType.object ∨ nty = VType.object) ∧ kt ≠ "" then
          addRec emptyCD (objMT o n oty nty mt0).2 (nodeRec0 kt o n oty nty os ns mt0)
          else emptyCD)).changed = [] ∧
          ((if (oty = VType.object ∨ nty = VType.object) ∧ kt ≠ "" then
          addRec emptyCD (objMT o n oty nty mt0).2 (nodeRec0 kt o n oty nty os ns mt0)
          else emptyCD)).new = [] ∧
          ((if (oty = VType.object ∨ nty = VType.object) ∧ kt ≠ "" then
          addRec emptyCD (objMT o n oty nty mt0).2 (nodeRec0 kt o n oty nty os ns mt0)
          else emptyCD)).dropped = [] := by
        split
        · rw [hA2]
          exact ⟨rfl, rfl, rfl⟩
        · exact ⟨rfl, rfl, rfl⟩
      have hcd1 := foldl_buckets_empty hcd0 hops
      refine foldl_buckets_empty ?_ haps
      split
      · rw [hB2]
        exact hcd1
      · exact hcd1

theorem mem_combined_obj {k : String} {kvs : List (String × Json)}
    (h : k ∈ pySorted (pyDedup (objKeysOf (some (.obj kvs)) ++ objKeysOf (some (.obj kvs))))) :
    k ∈ kvs.map Prod.fst := by
  rw [mem_pySorted, mem_pyDedup] at h
  rcases List.mem_append.mp h with h | h <;>
    simpa [objKeysOf, mem_pySorted] using h

theorem selfdiff_buckets :
    ∀ f : Nat, ∀ (v : Json) (kt : String) (frac : ℚ) (st : NodeState),
      FinOk v → compareFuel f kt (some v) (some v) frac = some st →
      st.cd.changed = [] ∧ st.cd.new = [] ∧ st.cd.dropped = [] := by
  intro f
  induction f with
  | zero => intro v kt frac st hfin h; simp [compareFuel] at h
  | succ f ih =>
    intro v kt frac st hfin h
    cases hso : sideType (some v) with
    | none => rw [compareFuel_succ, hso] at h; simp at h
    | some oty =>
      have hoty : vtypeT v = oty := typeDict_vtypeT hso
      subst hoty
      rw [compareFuel_succ_types hso hso] at h
      by_cases hc : containerCnt (vtypeT v) (vtypeT v) = 0
      · rw [if_pos hc] at h
        simp only [Option.some.injEq] at h
        subst h
        have hmt := leafMT_self_tag v (vtypeT v) (showSide (some v) (vtypeT v))
          (showSide (some v) (vtypeT v)) frac [Msg.typeUnchanged (vtypeT v)] (FinOk_fin hfin)
        simp [leafStep, phaseA_both, hmt, addRec, emptyCD]
      · rw [if_neg hc] at h
        have hA2 : (objMT (some v) (some v) (vtypeT v) (vtypeT v)
            (phaseA (some v) (some v) (vtypeT v) (vtypeT v))).2 = Cat.same := by
          by_cases hO : vtypeT v = VType.object ∨ vtypeT v = VType.object <;>
            simp [objMT, hO, phaseA_both, objSummary_self] <;> split <;> rfl
        have hB2 : (bothMT (some v) (some v) (vtypeT v) (vtypeT v)
            (phaseA (some v) (some v) (vtypeT v) (vtypeT v))).2 = Cat.same := by
          by_cases hA : vtypeT v = VType.array ∨ vtypeT v = VType.array
          · rw [bothMT, if_pos hA]
            rw [show (objMT (some v) (some v) (vtypeT v) (vtypeT v)
                (phaseA (some v) (some v) (vtypeT v) (vtypeT v))).2 = Cat.same from hA2]
            simp [arrSummary_self]
          · rw [bothMT, if_neg hA]
            exact hA2
        have hic : isCont (vtypeT v) = true := (cont_cases hc).elim id id
        cases v with
        | arr xs =>
          refine drillStep_buckets h hA2 hB2 ?_ ?_
          · intro x hx stx hstx
            simp [objCalls, objKeysOf, pyDedup, pySorted] at hx
          · intro x hx stx hstx
            simp only [arrCalls, List.mem_map, List.mem_range] at hx
            obtain ⟨idx, hidx, rfl⟩ := hx
            have hlt : idx < xs.length := by
              simpa [arrLenOf, Nat.max_self] using hidx
            have hch : arrChildOf (some (Json.arr xs)) idx = some xs[idx] := by
              simp [arrChildOf, List.getElem?_eq_getElem hlt]
            rw [hch] at hstx
            exact ih _ _ _ _ (FinOk_getElem hfin (List.getElem?_eq_getElem hlt)) hstx
        | obj kvs =>
          refine drillStep_buckets h hA2 hB2 ?_ ?_
          · intro x hx stx hstx
            simp only [objCalls, List.mem_map] at hx
            obtain ⟨k, hk, rfl⟩ := hx
            obtain ⟨w, hw⟩ := lookupJ_isSome_of_mem (mem_combined_obj hk)
            have hch : childOf (some (Json.obj kvs)) k = some w := by
              simp [childOf, hw]
            rw [hch] at hstx
            exact ih _ _ _ _ (FinOk_lookupJ hfin hw) hstx
          · intro x hx stx hstx
            simp [arrCalls, arrLenOf] at hx
        | null => simp [vtypeT, isCont] at hic
        | b x => simp [vtypeT, isCont] at hic
        | i nn => simp [vtypeT, isCont] at hic
        | num q => simp [vtypeT, isCont] at hic
        | s str => simp [vtypeT, isCont] at hic

/-! ## Set-algebra lemmas for `AddressedValueSet` -/

theorem mem_foldl_union (A : Finset AV) (sets : List (Finset AV)) (x : AV) :
    x ∈ sets.foldl (· ∪ ·) A ↔ x ∈ A ∨ ∃ s ∈ sets, x ∈ s := by
  induction sets generalizing A with
  | nil => simp
  | cons s ss ih =>
    simp only [List.foldl_cons, ih, Finset.mem_union, List.mem_cons]
    constructor
    · rintro ((h | h) | ⟨t, ht, hx⟩)
      · exact Or.inl h
      · exact Or.inr ⟨s, Or.inl rfl, h⟩
      · exact Or.inr ⟨t, Or.inr ht, hx⟩
    · rintro (h | ⟨t, (rfl | ht), hx⟩)
      · exact Or.inl (Or.inl h)
      · exact Or.inl (Or.inr hx)
      · exact Or.inr ⟨t, ht, hx⟩

theorem mem_foldl_inter (A : Finset AV) (sets : List (Finset AV)) (x : AV) :
    x ∈ sets.foldl (· ∩ ·) A ↔ x ∈ A ∧ ∀ s ∈ sets, x ∈ s := by
  induction sets generalizing A with
  | nil => simp
  | cons s ss ih =>
    simp only [List.foldl_cons, ih, Finset.mem_inter, List.mem_cons]
    constructor
    · rintro ⟨⟨hA, hs⟩, hall⟩
      exact ⟨hA, fun t ht => ht.elim (fun e => e ▸ hs) (hall t)⟩
    · rintro ⟨hA, hall⟩
      exact ⟨⟨hA, hall s (Or.inl rfl)⟩, fun t ht => hall t (Or.inr ht)⟩

/-! ## Claim theorems -/

/-- C1 counterexample: two failure modes refute the self-diff identity.
(i) Comparing the well-formed tree `{"a": 2**70}` to itself produces no
DiffResult at all — under CPython 2 the value is a `long`, and the
`type_dict` lookup raises `KeyError`.  (ii) Comparing `{"a": "inf"}` to
itself completes but places its one record in `changed`, with `same` empty:
both sides coerce to the float `inf`, the difference `inf - inf` is `nan`,
and `abs(nan) <= abs(inf * frac)` is false, so line 180 marks the leaf
significant. -/
theorem c1_self_diff_cx :
    (¬ ∃ st, jsonCompare (Json.obj [("a", Json.i (2^70))])
        (Json.obj [("a", Json.i (2^70))]) (1/10) = some st ∧
        st.cd.changed = [] ∧ st.cd.new = [] ∧ st.cd.dropped = []) ∧
    floatOfString "inf" = some PyF.inf ∧
    (jsonCompare (Json.obj [("a", Json.s "inf")])
        (Json.obj [("a", Json.s "inf")]) 1).map
      (fun st => (st.cd.changed.map DiffRecord.key_tag, st.cd.same.length)) =
      some (["a"], 0) := by
  refine ⟨?_, rfl, rfl⟩
  have h : jsonCompare (Json.obj [("a", Json.i (2^70))])
      (Json.obj [("a", Json.i (2^70))]) (1/10) = none := by rfl
  rintro ⟨st, hst, _⟩
  rw [h] at hst
  cases hst

/-- C1 (amended): for every tree all of whose integers lie in the CPython 2
machine-int range and none of whose leaves coerce under `float` to an
infinity or a NaN, comparing the tree to itself (both sides present at
every node, any significance fraction) completes and yields a DiffResult in
which the `changed`, `new` and `dropped` buckets are empty and the root
category is `same` — so every emitted DiffRecord sits in `same`, including
boolean and null leaves, which take the 'Cannot compare values' path
without altering the prior `same` determination.  Outside these bounds the
identity fails: an out-of-range integer raises `KeyError`, and a leaf
coercing to `inf` or `nan` (such as the strings "inf", "nan" or "1e999")
self-compares as `changed` through the NaN difference. -/
theorem c1_self_diff_amended (T : Json) (frac : ℚ) (hok : IntsOk T) (hfin : FinOk T) :
    ∃ st, jsonCompare T T frac = some st ∧ st.tag = Cat.same ∧
      st.cd.changed = [] ∧ st.cd.new = [] ∧ st.cd.dropped = [] := by
  obtain ⟨st, hst⟩ := compareFuel_total (osize (some T) + osize (some T) + 1) ""
    (some T) (some T) frac (by omega) hok hok
  have hb := selfdiff_buckets _ _ _ _ _ hfin hst
  refine ⟨st, hst, ?_, hb.1, hb.2.1, hb.2.2⟩
  rw [(compareFuel_state hst).2.2.2, nodeMT_self_tag _ _ (FinOk_fin hfin)]

/-- C1 witness: the amended self-diff theorem applied to a concrete mixed
tree (object, array, string, boolean, null), both side conditions
discharged at the concrete tree. -/
theorem c1_self_diff_witness :
    IntsOk (Json.obj [("a", Json.s "x"), ("b", Json.arr [Json.b true, Json.null])]) ∧
    FinOk (Json.obj [("a", Json.s "x"), ("b", Json.arr [Json.b true, Json.null])]) ∧
    ∃ st, jsonCompare (Json.obj [("a", Json.s "x"), ("b", Json.arr [Json.b true, Json.null])])
        (Json.obj [("a", Json.s "x"), ("b", Json.arr [Json.b true, Json.null])]) (1/10) = some st ∧
      st.tag = Cat.same ∧ st.cd.changed = [] ∧ st.cd.new = [] ∧ st.cd.dropped = [] := by
  have hok : IntsOk (Json.obj [("a", Json.s "x"), ("b", Json.arr [Json.b true, Json.null])]) := by
    refine IntsOk.obj _ ?_
    intro p hp
    simp only [List.mem_cons, List.not_mem_nil, or_false] at hp
    rcases hp with rfl | rfl
    · exact IntsOk.s _
    · refine IntsOk.arr _ ?_
      intro x hx
      simp only [List.mem_cons, List.not_mem_nil, or_false] at hx
      rcases hx with rfl | rfl
      · exact IntsOk.b _
      · exact IntsOk.null
  have hfin : FinOk (Json.obj [("a", Json.s "x"), ("b", Json.arr [Json.b true, Json.null])]) := by
    refine FinOk.obj _ ?_
    intro p hp
    simp only [List.mem_cons, List.not_mem_nil, or_false] at hp
    rcases hp with rfl | rfl
    · exact FinOk.s _ rfl
    · refine FinOk.arr _ ?_
      intro x hx
      simp only [List.mem_cons, List.not_mem_nil, or_false] at hx
      rcases hx with rfl | rfl
      · exact FinOk.b _
      · exact FinOk.null
  exact ⟨hok, hfin, c1_self_diff_amended _ _ hok hfin⟩

/-- C2: the code evaluated at the failing input.  The well-formed pair of
identical trees `{"a": 2**70}` makes the comparison raise an uncaught
`KeyError` (CPython 2 stores `2**70` as a `long`, and `type_dict` has no
`LongType` entry), instead of running to completion with a DiffResult; the
first conjunct pinpoints the failing `type_dict` lookup. -/
theorem c2_totality_failing_eval :
    typeDict (Json.i (2^70)) = none ∧
    jsonCompare (Json.obj [("a", Json.i (2^70))])
      (Json.obj [("a", Json.i (2^70))]) (1/10) = none :=
  ⟨rfl, rfl⟩

/-- C6 counterexample: invoking the node comparator with both sides absent
does not raise — it completes (`isSome`) and emits exactly one DiffRecord,
placed in the `new` bucket. -/
theorem c6_both_absent_cx :
    (compareNode "k" none none (1/10)).isSome = true ∧
    (compareNode "k" none none (1/10)).map (fun st => st.cd.new.length) = some 1 :=
  ⟨rfl, rfl⟩

/-- C6 (amended): a both-absent call is not rejected: the old-absent branch
wins, and the call returns a node state with a single DiffRecord in
category `new` carrying the message 'Key_tag not in original input file',
with both values and both types shown as `'-'`. -/
theorem c6_both_absent_amended (kt : String) (frac : ℚ) :
    compareNode kt none none frac =
      some ⟨⟨[], [⟨kt, .dash, .dash, .dash, .dash, [.keyNotInOld]⟩], [], []⟩, .new,
        [.keyNotInOld], .dash, .dash⟩ := rfl

/-- C8: `symmetric_difference` equals `union` minus `intersection`, and over
the `(address, value)` element domain its members are exactly the elements
of the union of the receiver and all sources that are not in their common
intersection. -/
theorem c8_symmetric_difference (A : AddressedValueSet) (args : List AVSInput) :
    (A.symmetric_difference args).1.addressed_values =
      (A.union args).1.addressed_values \ (A.intersection args).1.addressed_values ∧
    ∀ x : AV, x ∈ (A.symmetric_difference args).1.addressed_values ↔
      ((x ∈ A.addressed_values ∨ ∃ s ∈ getAddressedValueSets args, x ∈ s) ∧
       ¬(x ∈ A.addressed_values ∧ ∀ s ∈ getAddressedValueSets args, x ∈ s)) := by
  constructor
  · rfl
  · intro x
    simp only [AddressedValueSet.symmetric_difference, avsLogic, Finset.mem_sdiff,
      mem_foldl_union, mem_foldl_inter]

/-- C9: the four set operations return a fresh `AddressedValueSet` built
from the computed result and leave the receiver's internal
`addressed_values` exactly as it was; `_addressedvalueset_logic` only reads
the receiver, and the internal set is assigned only at construction. -/
theorem c9_receiver_frame (self : AddressedValueSet) (args : List AVSInput) :
    (self.union args).2 = self ∧ (self.intersection args).2 = self ∧
    (self.difference args).2 = self ∧ (self.symmetric_difference args).2 = self :=
  ⟨rfl, rfl, rfl, rfl⟩

/-- C10: for a leaf where both sides are booleans the semantic types match,
`test_value_diff` reports the values as incomparable, the record's message
list carries 'Cannot compare values', and the category remains `same` for
every pair of booleans — differing booleans (e.g. true vs false) are never
reported as `changed`. -/
theorem c10_boolean_same (kt : String) (x y : Bool) (frac : ℚ) :
    compareNode kt (some (Json.b x)) (some (Json.b y)) frac =
      some ⟨⟨[], [], [], [⟨kt, .raw (.b x), .boolean, .raw (.b y), .boolean,
          [.typeUnchanged .boolean, .cannotCompare]⟩]⟩, .same,
        [.typeUnchanged .boolean, .cannotCompare], .boolean, .boolean⟩ := rfl

/-! ## Leaf-block characterizations (claims C3, C4) -/

theorem compareNode_leaf {kt : String} {o n : Option Json} {frac : ℚ} {oty nty : VType}
    (ho : sideType o = some oty) (hn : sideType n = some nty)
    (hc : containerCnt oty nty = 0) :
    compareNode kt o n frac =
      some (leafStep kt o n oty nty (showSide o oty) (showSide n nty) frac
        (phaseA o n oty nty).1 (phaseA o n oty nty).2) := by
  unfold compareNode
  rw [compareFuel_succ_types ho hn, if_pos hc]

theorem leafMT_numeric {o n : Option Json} {fo fn : PyF}
    (ho : pyFloatSide o = some fo) (hn : pyFloatSide n = some fn)
    (hos : o.isSome = true) (hns : n.isSome = true)
    (oty nty : VType) (os2 ns2 : Shown) (frac : ℚ) (ms : List Msg) (tg : Cat) :
    leafMT o n oty nty os2 ns2 frac ms tg =
      if pfLeB (pfAbs (pfSub fo fn)) (pfAbs (pfMulQ fo frac)) = true then
        (ms ++ [.numDiffNotSig (.num (pfSub fo fn))], tg)
      else (ms ++ [.numDiffSig (.num (pfSub fo fn))], Cat.changed) := by
  unfold leafMT test_value_diff
  rw [ho, hn]
  simp only [hos, hns, Bool.and_true, and_true]
  simp [pyAbs]

theorem noCont_of_pyFloat {j : Json} {x : PyF} {t : VType} (hq : pyFloat j = some x)
    (ht : typeDict j = some t) : isCont t = false := by
  cases j with
  | s str =>
    simp only [typeDict, Option.some.injEq] at ht
    subst ht
    rfl
  | i nn =>
    simp only [typeDict] at ht
    split at ht
    · simp only [Option.some.injEq] at ht
      subst ht
      rfl
    · simp at ht
  | num q2 =>
    simp only [typeDict, Option.some.injEq] at ht
    subst ht
    rfl
  | null => simp [pyFloat] at hq
  | b x => simp [pyFloat] at hq
  | arr xs => simp [pyFloat] at hq
  | obj kvs => simp [pyFloat] at hq

theorem exists_ext_append (ms rest : List Msg) : ∃ ext, ms ++ rest = ms ++ ext := ⟨rest, rfl⟩

theorem exists_ext_append2 (ms r1 r2 : List Msg) : ∃ ext, (ms ++ r1) ++ r2 = ms ++ ext :=
  ⟨r1 ++ r2, by simp⟩

theorem exists_ext_self (ms : List Msg) : ∃ ext, ms = ms ++ ext := ⟨[], by simp⟩

theorem leafMT_changed (o n : Option Json) (oty nty : VType) (os2 ns2 : Shown)
    (frac : ℚ) (ms : List Msg) :
    (leafMT o n oty nty os2 ns2 frac ms Cat.changed).2 = Cat.changed ∧
    ∃ ext, (leafMT o n oty nty os2 ns2 frac ms Cat.changed).1 = ms ++ ext := by
  constructor
  · simp only [leafMT]
    repeat' split
    all_goals rfl
  · simp only [leafMT]
    repeat' split
    all_goals first
      | exact exists_ext_append2 _ _ _
      | exact exists_ext_append _ _
      | exact exists_ext_self _

theorem objSummary_changed (oty nty : VType) (ks1 ks2 : List String) (ms : List Msg) :
    (objSummary oty nty ks1 ks2 ms Cat.changed).2 = Cat.changed ∧
    ∃ ext, (objSummary oty nty ks1 ks2 ms Cat.changed).1 = ms ++ ext := by
  constructor
  · simp only [objSummary]
    repeat' split
    all_goals rfl
  · simp only [objSummary]
    repeat' split
    all_goals first
      | exact exists_ext_append _ _
      | exact exists_ext_self _

theorem arrSummary_changed (oty nty : VType) (l1 l2 : Nat) (ms : List Msg) :
    (arrSummary oty nty l1 l2 ms Cat.changed).2 = Cat.changed ∧
    ∃ ext, (arrSummary oty nty l1 l2 ms Cat.changed).1 = ms ++ ext := by
  constructor
  · simp only [arrSummary]
    repeat' split
    all_goals rfl
  · simp only [arrSummary]
    repeat' split
    all_goals first
      | exact exists_ext_append _ _
      | exact exists_ext_self _

theorem bothMT_changed {o n : Option Json} {oty nty : VType} {mt0 : List Msg × Cat}
    (h : mt0.2 = Cat.changed) :
    (bothMT o n oty nty mt0).2 = Cat.changed ∧
    ∃ ext, (bothMT o n oty nty mt0).1 = mt0.1 ++ ext := by
  have hA : (objMT o n oty nty mt0).2 = Cat.changed ∧
      ∃ ext, (objMT o n oty nty mt0).1 = mt0.1 ++ ext := by
    unfold objMT
    split
    · rw [show mt0.2 = Cat.changed from h]
      exact objSummary_changed _ _ _ _ _
    · exact ⟨h, exists_ext_self _⟩
  unfold bothMT
  split
  · obtain ⟨h1, ext1, h2⟩ := hA
    rw [h1, h2]
    obtain ⟨h3, ext2, h4⟩ := arrSummary_changed oty nty (arrLenOf o) (arrLenOf n) (mt0.1 ++ ext1)
    refine ⟨h3, ?_⟩
    rw [h4]
    exact exists_ext_append2 _ _ _
  · exact hA

theorem nodeMT_types_differ {jo jn : Json} {frac : ℚ}
    (hne : vtypeT jo ≠ vtypeT jn) :
    (nodeMT (some jo) (some jn) frac).2 = Cat.changed ∧
    Msg.typeChanged (vtypeT jo) (vtypeT jn) ∈ (nodeMT (some jo) (some jn) frac).1 := by
  have hph : phaseA (some jo) (some jn) (sideTypeT (some jo)) (sideTypeT (some jn)) =
      ([Msg.typeChanged (vtypeT jo) (vtypeT jn)], Cat.changed) := by
    rw [phaseA_both]
    simp [sideTypeT, hne]
  simp only [nodeMT]
  rw [hph]
  by_cases hc : containerCnt (sideTypeT (some jo)) (sideTypeT (some jn)) = 0 <;>
    simp only [if_pos, if_neg, hc, if_true, if_false, ite_true, ite_false]
  case pos =>
    obtain ⟨h1, ext, h2⟩ := leafMT_changed (some jo) (some jn) (sideTypeT (some jo))
      (sideTypeT (some jn)) (showSide (some jo) (sideTypeT (some jo)))
      (showSide (some jn) (sideTypeT (some jn))) frac [Msg.typeChanged (vtypeT jo) (vtypeT jn)]
    refine ⟨h1, ?_⟩
    rw [h2]
    simp
  case neg =>
    obtain ⟨h1, ext, h2⟩ := @bothMT_changed (some jo) (some jn)
      (sideTypeT (some jo)) (sideTypeT (some jn))
      ([Msg.typeChanged (vtypeT jo) (vtypeT jn)], Cat.changed) rfl
    refine ⟨h1, ?_⟩
    rw [h2]
    simp

/-- C3 counterexample: the code computes the leaf significance rule in
IEEE-754 double precision, not in exact arithmetic.  `float(2**62 + 1)`
rounds to the same double `2^52 * 2^10` as `float(2**62)`, so comparing
those two integers at significance fraction 0 yields `same` with a reported
difference of 0.0 — although `|old - new| = 1` exceeds `|old| * 0 = 0`, so
the exact-arithmetic rule demands `changed`. -/
theorem c3_significance_cx :
    pyFloat (Json.i (2^62 + 1)) = some (PyF.finite (2^52) 10) ∧
    pyFloat (Json.i (2^62)) = some (PyF.finite (2^52) 10) ∧
    (compareNode "x" (some (Json.i (2^62 + 1))) (some (Json.i (2^62))) 0).map
        (fun st => (st.tag, st.msgs)) =
      some (Cat.same, [Msg.typeUnchanged VType.integer,
        Msg.numDiffNotSig (DiffVal.num (PyF.finite 0 0))]) ∧
    ¬ (|(2^62 + 1 : Int) - 2^62| ≤ |(2^62 + 1 : Int)| * 0) :=
  ⟨rfl, rfl, rfl, by decide⟩

/-- C3 (amended): for a leaf node with both sides present and both values
coercible to floats, the engine computes `diff` and `threshold` in double
precision — `diff = float(old) - float(new)` (IEEE subtraction, carried in
the numeric message), `threshold = abs(float(old) * frac)` — and the
category is `same` exactly when the types match and the Python comparison
`abs(diff) <= threshold` holds, else `changed`; a comparison involving a
NaN is false, so a leaf coercing to an infinity on both sides lands in
`changed`.  In particular 100 vs 91 at fraction 1/10 is `same` and 100 vs
89 is `changed`, as the exact rule predicts for values this small. -/
theorem c3_significance_amended (kt : String) (jo jn : Json) (frac : ℚ)
    (vto vtn : VType) (fo fn : PyF)
    (hto : typeDict jo = some vto) (htn : typeDict jn = some vtn)
    (hqo : pyFloat jo = some fo) (hqn : pyFloat jn = some fn) :
    (∃ st, compareNode kt (some jo) (some jn) frac = some st ∧
      st.tag = (if vto = vtn ∧ pfLeB (pfAbs (pfSub fo fn)) (pfAbs (pfMulQ fo frac)) = true
                then Cat.same else Cat.changed) ∧
      (if pfLeB (pfAbs (pfSub fo fn)) (pfAbs (pfMulQ fo frac)) = true
       then Msg.numDiffNotSig (DiffVal.num (pfSub fo fn)) ∈ st.msgs
       else Msg.numDiffSig (DiffVal.num (pfSub fo fn)) ∈ st.msgs)) ∧
    (compareNode "x" (some (Json.i 100)) (some (Json.i 91)) (1/10)).map NodeState.tag =
      some Cat.same ∧
    (compareNode "x" (some (Json.i 100)) (some (Json.i 89)) (1/10)).map NodeState.tag =
      some Cat.changed := by
  refine ⟨?_, ?_, ?_⟩
  · have hc : containerCnt vto vtn = 0 := by
      have h1 := noCont_of_pyFloat hqo hto
      have h2 := noCont_of_pyFloat hqn htn
      simp [containerCnt, h1, h2]
    have hleaf := @compareNode_leaf kt (some jo) (some jn) frac vto vtn
      (show sideType (some jo) = some vto from hto)
      (show sideType (some jn) = some vtn from htn) hc
    have hnum := leafMT_numeric (show pyFloatSide (some jo) = some fo from hqo)
      (show pyFloatSide (some jn) = some fn from hqn) rfl rfl vto vtn
      (showSide (some jo) vto) (showSide (some jn) vtn) frac
      (phaseA (some jo) (some jn) vto vtn).1 (phaseA (some jo) (some jn) vto vtn).2
    have hph := phaseA_both jo jn vto vtn
    refine ⟨_, hleaf, ?_, ?_⟩
    · simp only [leafStep]
      rw [hnum, hph]
      by_cases h1 : vto = vtn <;>
        by_cases h2 : pfLeB (pfAbs (pfSub fo fn)) (pfAbs (pfMulQ fo frac)) = true <;>
          simp [h1, h2]
    · simp only [leafStep]
      rw [hnum]
      by_cases h2 : pfLeB (pfAbs (pfSub fo fn)) (pfAbs (pfMulQ fo frac)) = true <;>
        simp [h2]
  · rw [tenth_def]
    rfl
  · rw [tenth_def]
    rfl

/-- C3 witness: the amended significance theorem applied at old = 100,
new = 91 with significance fraction 1, every hypothesis discharged at the
concrete input. -/
theorem c3_significance_witness :
    typeDict (Json.i 100) = some VType.integer ∧
    typeDict (Json.i 91) = some VType.integer ∧
    pyFloat (Json.i 100) = some (PyF.finite (25 * 2^48) (-46)) ∧
    pyFloat (Json.i 91) = some (PyF.finite (91 * 2^46) (-46)) ∧
    ((∃ st, compareNode "w" (some (Json.i 100)) (some (Json.i 91)) 1 = some st ∧
      st.tag = (if VType.integer = VType.integer ∧
          pfLeB (pfAbs (pfSub (PyF.finite (25 * 2^48) (-46)) (PyF.finite (91 * 2^46) (-46))))
            (pfAbs (pfMulQ (PyF.finite (25 * 2^48) (-46)) 1)) = true
        then Cat.same else Cat.changed) ∧
      (if pfLeB (pfAbs (pfSub (PyF.finite (25 * 2^48) (-46)) (PyF.finite (91 * 2^46) (-46))))
            (pfAbs (pfMulQ (PyF.finite (25 * 2^48) (-46)) 1)) = true
       then Msg.numDiffNotSig (DiffVal.num (pfSub (PyF.finite (25 * 2^48) (-46))
              (PyF.finite (91 * 2^46) (-46)))) ∈ st.msgs
       else Msg.numDiffSig (DiffVal.num (pfSub (PyF.finite (25 * 2^48) (-46))
              (PyF.finite (91 * 2^46) (-46)))) ∈ st.msgs)) ∧
     (compareNode "x" (some (Json.i 100)) (some (Json.i 91)) (1/10)).map NodeState.tag =
       some Cat.same ∧
     (compareNode "x" (some (Json.i 100)) (some (Json.i 89)) (1/10)).map NodeState.tag =
       some Cat.changed) :=
  ⟨rfl, rfl, rfl, rfl,
    c3_significance_amended "w" (Json.i 100) (Json.i 91) 1 VType.integer VType.integer
      (PyF.finite (25 * 2^48) (-46)) (PyF.finite (91 * 2^46) (-46)) rfl rfl rfl rfl⟩

/-- C4: whenever both sides are present and their `type_dict` types differ,
the node's category is `changed` and the message list records the type
transition; the concrete conjuncts check old = "5" vs new = 5, which is
`changed` with the type-transition message first even though both sides
coerce to the same float 5.0 (the numeric difference is then reported as
not significant). -/
theorem c4_type_precedence (kt : String) (jo jn : Json) (frac : ℚ) (vto vtn : VType)
    (hto : typeDict jo = some vto) (htn : typeDict jn = some vtn) (hne : vto ≠ vtn)
    (hokO : IntsOk jo) (hokN : IntsOk jn) :
    (∃ st, compareNode kt (some jo) (some jn) frac = some st ∧
      st.tag = Cat.changed ∧ Msg.typeChanged vto vtn ∈ st.msgs) ∧
    (compareNode "a" (some (Json.s "5")) (some (Json.i 5)) (1/10)).map
        (fun st => (st.tag, st.msgs)) =
      some (Cat.changed, [Msg.typeChanged VType.string VType.integer,
        Msg.numDiffNotSig (DiffVal.num (PyF.finite 0 0))]) ∧
    pyFloat (Json.s "5") = some (PyF.finite (5 * 2^50) (-50)) ∧
    pyFloat (Json.i 5) = some (PyF.finite (5 * 2^50) (-50)) := by
  refine ⟨?_, ?_, rfl, rfl⟩
  · obtain ⟨st, hst⟩ := compareFuel_total (osize (some jo) + osize (some jn) + 1) kt
      (some jo) (some jn) frac (by omega) hokO hokN
    have hstate := compareFuel_state hst
    have hvo : vtypeT jo = vto := typeDict_vtypeT hto
    have hvn : vtypeT jn = vtn := typeDict_vtypeT htn
    have hnm := @nodeMT_types_differ jo jn frac (by rw [hvo, hvn]; exact hne)
    refine ⟨st, hst, ?_, ?_⟩
    · rw [hstate.2.2.2, hnm.1]
    · rw [hstate.2.2.1]
      have := hnm.2
      rwa [hvo, hvn] at this
  · rw [tenth_def]
    rfl

/-- C4 witness: the type-precedence theorem applied to the string "abc"
against the boolean true. -/
theorem c4_type_precedence_witness :
    typeDict (Json.s "abc") = some VType.string ∧
    typeDict (Json.b true) = some VType.boolean ∧
    VType.string ≠ VType.boolean ∧
    IntsOk (Json.s "abc") ∧ IntsOk (Json.b true) ∧
    ((∃ st, compareNode "w" (some (Json.s "abc")) (some (Json.b true)) (1/10) = some st ∧
      st.tag = Cat.changed ∧ Msg.typeChanged VType.string VType.boolean ∈ st.msgs) ∧
    (compareNode "a" (some (Json.s "5")) (some (Json.i 5)) (1/10)).map
        (fun st => (st.tag, st.msgs)) =
      some (Cat.changed, [Msg.typeChanged VType.string VType.integer,
        Msg.numDiffNotSig (DiffVal.num (PyF.finite 0 0))]) ∧
    pyFloat (Json.s "5") = some (PyF.finite (5 * 2^50) (-50)) ∧
    pyFloat (Json.i 5) = some (PyF.finite (5 * 2^50) (-50))) :=
  ⟨rfl, rfl, by decide, IntsOk.s _, IntsOk.b _,
    c4_type_precedence "w" (Json.s "abc") (Json.b true) (1/10) VType.string VType.boolean
      rfl rfl (by decide) (IntsOk.s _) (IntsOk.b _)⟩

/-! ## The addresser versus the spec traversal rule (claim C7) -/

theorem drill_eq_spec_aux :
    ∀ m : Nat, ∀ (v : Json) (a : Address), jsize v ≤ m →
      value_drilldown a v = specAddress a v := by
  intro m
  induction m with
  | zero =>
    intro v a h
    have := jsize_pos v
    omega
  | succ m ih =>
    intro v a h
    cases v with
    | null => rfl
    | b x => rfl
    | i nn => rfl
    | num q => rfl
    | s t => rfl
    | arr xs =>
      show drillArr a 0 xs = specElems a 0 xs
      have hb : jsizeL xs ≤ m := by
        have he : jsize (Json.arr xs) = 1 + jsizeL xs := rfl
        omega
      have hgen : ∀ (ys : List Json) (cnt : Nat), jsizeL ys ≤ m →
          drillArr a cnt ys = specElems a cnt ys := by
        intro ys
        induction ys with
        | nil => intro cnt _; rfl
        | cons y yt ihy =>
          intro cnt hys
          have he : jsizeL (y :: yt) = jsize y + jsizeL yt := rfl
          have h1 : jsize y ≤ m := by omega
          have h2 : jsizeL yt ≤ m := by omega
          show value_drilldown (a ++ [.idx cnt]) y ++ drillArr a (cnt + 1) yt =
            specAddress (a ++ [.idx cnt]) y ++ specElems a (cnt + 1) yt
          rw [ih y _ h1, ihy (cnt + 1) h2]
      exact hgen xs 0 hb
    | obj kvs =>
      show drillObj a kvs = specFields a kvs
      have hb : jsizeO kvs ≤ m := by
        have he : jsize (Json.obj kvs) = 1 + jsizeO kvs := rfl
        omega
      have hgen : ∀ (ps : List (String × Json)), jsizeO ps ≤ m →
          drillObj a ps = specFields a ps := by
        intro ps
        induction ps with
        | nil => intro _; rfl
        | cons p pt ihp =>
          intro hps
          have he : jsizeO (p :: pt) = jsize p.2 + jsizeO pt := rfl
          have h1 : jsize p.2 ≤ m := by omega
          have h2 : jsizeO pt ≤ m := by omega
          obtain ⟨k, w⟩ := p
          show value_drilldown (a ++ [.str k]) w ++ drillObj a pt =
            specAddress (a ++ [.str k]) w ++ specFields a pt
          rw [ih w _ h1, ihp h2]
      exact hgen kvs hb

theorem value_drilldown_eq_spec (a : Address) (v : Json) :
    value_drilldown a v = specAddress a v :=
  drill_eq_spec_aux (jsize v) v a (le_refl _)

/-- C7 counterexample: for an array-rooted tree the addresser produces
nothing at all — `address_json` calls `.items()` on the parsed root, which
raises `AttributeError` for a list — although the claimed traversal rule
demands the nonempty pair set {((0), 1)}. -/
theorem c7_addresser_root_cx :
    address_json_mem (Json.arr [Json.i 1]) = none ∧
    specAddress [] (Json.arr [Json.i 1]) = [([JKey.idx 0], SVal.i 1)] :=
  ⟨rfl, rfl⟩

/-- C7 (amended): the traversal rule of the claim holds for
`value_drilldown` on every value and every address prefix, and therefore
for the `address_json` entry point on every object-rooted tree; for
array- or scalar-rooted trees `address_json` raises instead of producing
the rule's set. -/
theorem c7_addresser_amended :
    (∀ (a : Address) (v : Json), value_drilldown a v = specAddress a v) ∧
    (∀ kvs : List (String × Json),
      address_json_mem (Json.obj kvs) = some (specAddress [] (Json.obj kvs))) := by
  refine ⟨value_drilldown_eq_spec, ?_⟩
  intro kvs
  show some (drillObj [] kvs) = some (specFields [] kvs)
  congr 1
  induction kvs with
  | nil => rfl
  | cons p rest ih =>
    obtain ⟨k, w⟩ := p
    show value_drilldown ([] ++ [.str k]) w ++ drillObj [] rest =
      specAddress ([] ++ [.str k]) w ++ specFields [] rest
    rw [value_drilldown_eq_spec, ih]

/-! ## Record accounting (claim C5) -/

theorem cdTotal_emptyCD : cdTotal emptyCD = 0 := rfl

theorem cdTotal_ite_addRec (P : Prop) [Decidable P] (cd : CompareDict) (c : Cat)
    (r : DiffRecord) :
    cdTotal (if P then addRec cd c r else cd) = cdTotal cd + (if P then 1 else 0) := by
  split <;> simp [cdTotal_addRec]

theorem drillStep_count {rc : String → Option Json → Option Json → Option NodeState}
    {kt : String} {o n : Option Json} {oty nty : VType} {os ns : Shown}
    {mt0 : List Msg × Cat} {st : NodeState}
    (h : drillStep rc kt o n oty nty os ns mt0 = some st)
    (g1 : String → Nat) (g2 : Nat → Nat)
    (hobjcnt : ∀ k ∈ pySorted (pyDedup (objKeysOf o ++ objKeysOf n)), ∀ stx : NodeState,
      rc (objChildTag kt k) (childOf o k) (childOf n k) = some stx → cdTotal stx.cd = g1 k)
    (harrcnt : ∀ idx ∈ List.range (Nat.max (arrLenOf o) (arrLenOf n)), ∀ stx : NodeState,
      rc (arrChildTag kt idx) (arrChildOf o idx) (arrChildOf n idx) = some stx →
        cdTotal stx.cd = g2 idx) :
    cdTotal st.cd =
      (if (oty = VType.object ∨ nty = VType.object) ∧ kt ≠ "" then 1 else 0) +
      (if oty = VType.object ∨ nty = VType.object then
        ((pySorted (pyDedup (objKeysOf o ++ objKeysOf n))).map g1).sum else 0) +
      (if oty = VType.array ∨ nty = VType.array then 1 else 0) +
      (if oty = VType.array ∨ nty = VType.array then
        ((List.range (Nat.max (arrLenOf o) (arrLenOf n))).map g2).sum else 0) := by
  unfold drillStep at h
  cases h1 : (if oty = VType.object ∨ nty = VType.object then
      seqOpt (objCalls rc kt o n) else some []) with
  | none => simp [h1] at h
  | some objKids =>
    simp only [h1] at h
    cases h2 : (if oty = VType.array ∨ nty = VType.array then
        seqOpt (arrCalls rc kt o n) else some []) with
    | none => simp [h2] at h
    | some arrKids =>
      simp only [h2, Option.some.injEq] at h
      subst h
      have hobjsum : (objKids.map (fun stx => cdTotal stx.cd)).sum =
          (if oty = VType.object ∨ nty = VType.object then
            ((pySorted (pyDedup (objKeysOf o ++ objKeysOf n))).map g1).sum else 0) := by
        by_cases hO : oty = VType.object ∨ nty = VType.object
        · rw [if_pos hO] at h1
          rw [if_pos hO]
          exact seqOpt_map_sum _ _ (by simpa [objCalls] using h1) hobjcnt
        · rw [if_neg hO] at h1
          simp only [Option.some.injEq] at h1
          subst h1
          simp [hO]
      have harrsum : (arrKids.map (fun stx => cdTotal stx.cd)).sum =
          (if oty = VType.array ∨ nty = VType.array then
            ((List.range (Nat.max (arrLenOf o) (arrLenOf n))).map g2).sum else 0) := by
        by_cases hA : oty = VType.array ∨ nty = VType.array
        · rw [if_pos hA] at h2
          rw [if_pos hA]
          exact seqOpt_map_sum _ _ (by simpa [arrCalls] using h2) harrcnt
        · rw [if_neg hA] at h2
          simp only [Option.some.injEq] at h2
          subst h2
          simp [hA]
      show cdTotal _ = _
      rw [cdTotal_foldl, cdTotal_ite_addRec, cdTotal_foldl, cdTotal_ite_addRec,
        cdTotal_emptyCD, hobjsum, harrsum]
      omega

theorem count_aux :
    ∀ f : Nat, ∀ (kt : String) (o n : Option Json) (frac : ℚ) (st : NodeState),
      compareFuel f kt o n frac = some st → cdTotal st.cd = nodeSumFuel f kt o n := by
  intro f
  induction f with
  | zero => intro kt o n frac st h; simp [compareFuel] at h
  | succ f ih =>
    intro kt o n frac st h
    cases hso : sideType o with
    | none => rw [compareFuel_succ, hso] at h; simp at h
    | some oty =>
      cases hsn : sideType n with
      | none => rw [compareFuel_succ, hso, hsn] at h; simp at h
      | some nty =>
        rw [compareFuel_succ_types hso hsn] at h
        have hoe := sideTypeT_of_sideType hso
        have hne := sideTypeT_of_sideType hsn
        simp only [nodeSumFuel, hoe, hne]
        by_cases hc : containerCnt oty nty = 0
        · rw [if_pos hc] at h
          simp only [Option.some.injEq] at h
          subst h
          rw [if_pos hc]
          simp [leafStep, cdTotal_addRec, cdTotal_emptyCD]
        · rw [if_neg hc] at h
          rw [if_neg hc]
          rw [drillStep_count h
            (fun k => nodeSumFuel f (objChildTag kt k) (childOf o k) (childOf n k))
            (fun idx => nodeSumFuel f (arrChildTag kt idx) (arrChildOf o idx) (arrChildOf n idx))
            (fun k _ stx hstx => ih _ _ _ _ _ hstx)
            (fun idx _ stx hstx => ih _ _ _ _ _ hstx)]
          simp only [contribOf, if_neg hc]
          by_cases hO : oty = VType.object ∨ nty = VType.object <;>
            by_cases hA : oty = VType.array ∨ nty = VType.array <;>
              (simp only [hO, hA, if_pos, if_neg]; omega)

/-- C5 counterexample: comparing `{"a": {}}` against `{"a": []}` visits two
nodes (the synthetic root and the key "a"), yet the run emits two
DiffRecords both tagged "a" — the node whose container kind differs between
the two sides is appended once by the object branch and once by the array
branch, so it contributes two records, not one.  And a run on two empty
array roots emits a record tagged with the root's empty key tag, so the
synthetic root is not always silent either. -/
theorem c5_one_record_cx :
    (jsonCompare (Json.obj [("a", Json.obj [])]) (Json.obj [("a", Json.arr [])]) (1/10)).map
        (fun st => st.cd.changed.map DiffRecord.key_tag) = some ["a", "a"] ∧
    (jsonCompare (Json.obj [("a", Json.obj [])]) (Json.obj [("a", Json.arr [])]) (1/10)).map
        (fun st => cdTotal st.cd) = some 2 ∧
    (jsonCompare (Json.arr []) (Json.arr []) (1/10)).map
        (fun st => st.cd.same.map DiffRecord.key_tag) = some [""] :=
  ⟨rfl, rfl, rfl⟩

/-- C5 (amended): in every completed comparison run the total number of
emitted DiffRecords equals the sum over all visited nodes of that node's
contribution, where a node contributes: one record if neither side is a
container; otherwise one object-summary record when an object occurs on
either side and the node's key tag is nonempty, plus one array-summary
record when an array occurs on either side (`contribOf`).  In particular a
node whose container kind differs between the sides contributes two
records, an object-side node whose key tag is the empty string (the
synthetic root, or a child reached by an empty object key) contributes no
summary of its own, and a root that is an array or a leaf contributes one
record. -/
theorem c5_record_count_amended (oldT newT : Json) (frac : ℚ) (st : NodeState)
    (h : jsonCompare oldT newT frac = some st) :
    cdTotal st.cd = nodeSum "" (some oldT) (some newT) :=
  count_aux _ _ _ _ _ _ h

/-- C5 witness: the record-count theorem applied to a concrete run with an
added key, a dropped array and a changed string. -/
theorem c5_record_count_witness :
    ∃ st, jsonCompare (Json.obj [("a", Json.s "x"), ("b", Json.arr [Json.null])])
        (Json.obj [("a", Json.s "y")]) (1/10) = some st ∧
      cdTotal st.cd = nodeSum "" (some (Json.obj [("a", Json.s "x"), ("b", Json.arr [Json.null])]))
        (some (Json.obj [("a", Json.s "y")])) := by
  have hs : (jsonCompare (Json.obj [("a", Json.s "x"), ("b", Json.arr [Json.null])])
      (Json.obj [("a", Json.s "y")]) (1/10)).isSome = true := rfl
  obtain ⟨st, hst⟩ := Option.isSome_iff_exists.mp hs
  exact ⟨st, hst, c5_record_count_amended _ _ _ _ hst⟩
